import Mathlib

/-!
Verification development for the `api-example-generator` engine
(`src/ApiExampleGenerator.js`).

Modelling conventions (shallow embedding):

* AMF graph nodes are modelled by the inductive `Shape`.  The Model Accessor
  (`_getValue`, `_hasType`, `_resolve`, `_ensureArray`, `_getAmfKey`) is an
  external collaborator; we model its observable results directly:
  - `_getValue(node, iri)` becomes an `Option String` field of `Shape`;
  - `_hasType(node, iri)` becomes membership of the full IRI in `Shape.types`;
  - `_resolve` is idempotent reference resolution and is modelled as the
    identity (the accessor contract);
  - `_getAmfKey` maps an IRI to the compacted key of the loaded context; we
    model the context where the compacted key is the IRI itself, which the
    engine supports explicitly (every `switch` lists both the raw IRI and its
    compacted form);
  - the pervasive `if (x instanceof Array) x = x[0]` normalization of
    JSON-LD edges is modelled by storing the already-unwrapped node, and
    `_ensureArray` lists are stored as `Option (List _)` where `none` is an
    absent edge (JS `undefined`) and `some l` a present edge.
* JS scalar values are `JsVal`; JS numbers are modelled as `Rat`, with the
  host primitives `Number(…)`/`String(…)`/`JSON.parse`/`decodeURIComponent`
  abstracted into the record `JsRt` (they are runtime primitives, not code of
  this repository).  `JSON.parse` is only observed through `typeof` and
  whether it throws, so it is modelled as `String → Option JsTypeOf`.
* JS exceptions that escape the engine (property access on `undefined`,
  which throws a TypeError) are modelled with `Except Unit`; `.error ()` is a
  thrown exception, `.ok` a normal return.  The DOM tree builder is modelled
  as a non-validating tree constructor (`XmlElem`), per the capability
  contract of the specification.
* The engine mutates the shared `opts` object during recursion
  (`opts.typeName`, `opts.parentName`, `opts.typeId`).  Functions that
  observe or perform this mutation thread an explicit `Opts` value and
  return the final state, so sibling calls see prior mutations exactly as in
  the source.
* Recursive walks use an explicit `fuel : Nat` argument.  The source has no
  cycle protection and its recursion depth is the (finite) depth of the
  resolved shape tree, so every real run is a run with sufficiently large
  fuel; exhausted fuel returns the `undefined` result.
-/

/-! ### JS string primitives -/

/-- First index of `needle` in `hay` (JS `String.prototype.indexOf`),
`-1` when absent; the empty needle is found at 0. -/
def jsIndexOfAux : List Char → List Char → Nat → Int
  | _, [], _ => -1
  | needle, c :: rest, i =>
    if needle.isPrefixOf (c :: rest) then (i : Int)
    else jsIndexOfAux needle rest (i + 1)

def jsIndexOf (hay needle : String) : Int :=
  if needle.isEmpty then 0
  else jsIndexOfAux needle.toList hay.toList 0

/-- JS `hay.indexOf(needle) !== -1`. -/
def strContainsJs (hay needle : String) : Bool :=
  jsIndexOf hay needle ≠ -1

/-- JS `s.substr(n)`: drop the first `n` characters. -/
def jsSubstrFrom (s : String) (n : Nat) : String :=
  (s.toList.drop n).asString

/-- JS `s.replace(pat, "")` with a *string* pattern: removes only the first
occurrence of `pat`. -/
def jsReplaceFirstAux (pat : List Char) : List Char → List Char
  | [] => []
  | c :: rest =>
    if pat.isPrefixOf (c :: rest) then (c :: rest).drop pat.length
    else c :: jsReplaceFirstAux pat rest

def jsReplaceFirst (s pat : String) : String :=
  if pat.isEmpty then s else (jsReplaceFirstAux pat.toList s.toList).asString

/-- JS truthiness of a possibly-absent string: `undefined` and `""` are
falsy. -/
def jsTruthyS : Option String → Bool
  | none => false
  | some s => ¬ s.isEmpty

/-- Truthiness-normalized read of an optional string: the patterns
`if (!x) …` / `x || y` in the source treat `""` like `undefined`. -/
def getStr : Option String → Option String
  | none => none
  | some s => if s.isEmpty then none else some s

/-- `id[0].toUpperCase() + id.substr(1)`; the source throws a TypeError on
the empty string (`id[0]` is `undefined`), which callers model separately. -/
def jsCapitalize (s : String) : String :=
  match s.toList with
  | [] => ""
  | c :: rest => (c.toUpper :: rest).asString

/-- The `\s` whitespace class (ASCII part). -/
def isJsWs (c : Char) : Bool :=
  c = ' ' ∨ c = '\t' ∨ c = '\n' ∨ c = '\r' ∨ c = '\x0b' ∨ c = '\x0c'

/-- JS `String.prototype.trim`. -/
def jsTrim (s : String) : String :=
  ((s.toList.dropWhile isJsWs).reverse.dropWhile isJsWs).reverse.asString

/-- `s.indexOf(pre) === 0`. -/
def jsStartsWith (s pre : String) : Bool :=
  pre.toList.isPrefixOf s.toList

def jsEndsWith (s suf : String) : Bool :=
  suf.toList.isSuffixOf s.toList

def jsDropRight (s : String) (n : Nat) : String :=
  (s.toList.take (s.toList.length - n)).asString

def splitCharAux (sep : Char) : List Char → List Char → List (List Char)
  | acc, [] => [acc.reverse]
  | acc, c :: rest =>
    if c = sep then acc.reverse :: splitCharAux sep [] rest
    else splitCharAux sep (c :: acc) rest

/-- JS `s.split(sep)` for a one-character separator. -/
def jsSplitChar (sep : Char) (s : String) : List String :=
  (splitCharAux sep [] s.toList).map List.asString

/-! ### JS values and the host runtime -/

/-- A JS scalar value as it appears in the view model's `value` field. -/
inductive JsVal where
  | str (s : String)
  | num (q : Rat)
  | bool (b : Bool)
  | null
  | nan
  deriving DecidableEq, Repr

/-- `typeof` classification of a `JSON.parse` result. -/
inductive JsTypeOf where
  | string
  | number
  | boolean
  | object
  deriving DecidableEq, Repr

/-- Host-runtime primitives used by the engine.  These are not code of this
repository; theorems quantify over any runtime, witnesses instantiate one
that agrees with the JS host on the concrete inputs used. -/
structure JsRt where
  /-- `JSON.parse(s)` observed through `typeof`; `none` means it throws. -/
  jsonParseTypeOf : String → Option JsTypeOf
  /-- `Number(s)`; `none` means `NaN` (so `isNaN(s)` holds). -/
  strToNum : String → Option Rat
  /-- `String(n)` for a JS number. -/
  numToString : Rat → String
  /-- `decodeURIComponent`; `none` means it throws (caught by the source). -/
  decodeUriComp : String → Option String

/-- JS string coercion of a scalar value (template literals, text nodes). -/
def jsValDisp (rt : JsRt) : JsVal → String
  | .str s => s
  | .num q => rt.numToString q
  | .bool b => if b then "true" else "false"
  | .null => "null"
  | .nan => "NaN"

/-- JS truthiness of a scalar value. -/
def JsVal.truthy : JsVal → Bool
  | .str s => ¬ s.isEmpty
  | .num q => q ≠ 0
  | .bool b => b
  | .null => false
  | .nan => false

/-- JS `v[0]` on a value held in a `value` field: the first character for a
string, `undefined` otherwise. -/
def jsValFirstChar : JsVal → Option Char
  | .str s => s.toList.head?
  | _ => none

/-! ### Vocabulary IRIs (amf-helper-mixin `ns`) -/

def xmlSchemaNS : String := "http://www.w3.org/2001/XMLSchema#"
def shapesNS : String := "http://a.ml/vocabularies/shapes#"
def dataNS : String := "http://a.ml/vocabularies/data#"

def scalarShapeT : String := shapesNS ++ "ScalarShape"
def arrayShapeT : String := shapesNS ++ "ArrayShape"
def unionShapeT : String := shapesNS ++ "UnionShape"
def nilShapeT : String := shapesNS ++ "NilShape"
def nodeShapeT : String := "http://www.w3.org/ns/shacl#NodeShape"
def exampleT : String := "http://a.ml/vocabularies/apiContract#Example"
def payloadT : String := "http://a.ml/vocabularies/apiContract#Payload"
def namedExamplesT : String := "http://a.ml/vocabularies/document#NamedExamples"

def unknownTypeName : String := "unknown-type"

/-! ### Data model -/

/-- The literal stored under `data:value` of a scalar data node: either a
plain string edge or a JSON-LD value object `{'@value': …, '@type': …}`. -/
inductive DataVal where
  | plain (s : String)
  | typed (v : Option String) (ty : Option String)
  deriving DecidableEq, Repr

/-- A `document:structuredValue` subtree (data:Scalar / data:Object /
data:Array nodes).  `obj` keys are the full graph keys (IRI-prefixed);
`arr` stores the `rdf:member` edge (`none` when the key is absent);
`other` is a node carrying none of the three data types, with an optional
bare `'@value'`. -/
inductive DataNode where
  | scalar (value : Option DataVal) (datatype : Option String)
  | obj (props : List (String × DataNode))
  | arr (members : Option (List DataNode))
  | other (atValue : Option String)

/-- A node whose only observed content is its `data:value` string (used for
`shacl:defaultValue` nodes and source-map entries). -/
structure ValueNode where
  value : Option String
  deriving DecidableEq, Repr

/-- The `docSourceMaps:sources` node: the engine reads the
`parsedJsonSchema` and `trackedElement` entries, each an optional node with
an optional `value`. -/
structure SourceMap where
  parsedJsonSchema : Option ValueNode
  trackedElement : Option ValueNode
  deriving DecidableEq, Repr

/-- The `shapes:xmlSerialization` node. -/
structure XmlSer where
  xmlName : Option String
  xmlAttribute : Bool
  xmlWrapped : Bool
  deriving DecidableEq, Repr

/-- An AMF graph node, carrying every edge the engine reads.  String-valued
edges are stored as the accessor's `_getValue` result. -/
inductive Shape where
  | mk (types : List String) (id : String) (name : Option String)
       (sourceMap : Option SourceMap) (examples : Option (List Shape))
       (docRaw : Option String) (shaclRaw : Option String)
       (structuredValue : Option DataNode) (items : Option (List Shape))
       (anyOf : Option (List Shape)) (properties : Option (List Shape))
       (range : Option Shape) (datatype : Option String)
       (defaultValue : Option ValueNode) (defaultValueStr : Option String)
       (xmlSerialization : Option XmlSer) (mediaType : Option String)
       (schemaEdge : Option Shape)

def Shape.types : Shape → List String
  | .mk t _ _ _ _ _ _ _ _ _ _ _ _ _ _ _ _ _ => t

def Shape.id : Shape → String
  | .mk _ i _ _ _ _ _ _ _ _ _ _ _ _ _ _ _ _ => i

def Shape.name : Shape → Option String
  | .mk _ _ n _ _ _ _ _ _ _ _ _ _ _ _ _ _ _ => n

def Shape.sourceMap : Shape → Option SourceMap
  | .mk _ _ _ s _ _ _ _ _ _ _ _ _ _ _ _ _ _ => s

def Shape.examples : Shape → Option (List Shape)
  | .mk _ _ _ _ e _ _ _ _ _ _ _ _ _ _ _ _ _ => e

def Shape.docRaw : Shape → Option String
  | .mk _ _ _ _ _ r _ _ _ _ _ _ _ _ _ _ _ _ => r

def Shape.shaclRaw : Shape → Option String
  | .mk _ _ _ _ _ _ r _ _ _ _ _ _ _ _ _ _ _ => r

def Shape.structuredValue : Shape → Option DataNode
  | .mk _ _ _ _ _ _ _ v _ _ _ _ _ _ _ _ _ _ => v

def Shape.items : Shape → Option (List Shape)
  | .mk _ _ _ _ _ _ _ _ i _ _ _ _ _ _ _ _ _ => i

def Shape.anyOf : Shape → Option (List Shape)
  | .mk _ _ _ _ _ _ _ _ _ a _ _ _ _ _ _ _ _ => a

def Shape.properties : Shape → Option (List Shape)
  | .mk _ _ _ _ _ _ _ _ _ _ p _ _ _ _ _ _ _ => p

def Shape.range : Shape → Option Shape
  | .mk _ _ _ _ _ _ _ _ _ _ _ r _ _ _ _ _ _ => r

def Shape.datatype : Shape → Option String
  | .mk _ _ _ _ _ _ _ _ _ _ _ _ d _ _ _ _ _ => d

def Shape.defaultValue : Shape → Option ValueNode
  | .mk _ _ _ _ _ _ _ _ _ _ _ _ _ d _ _ _ _ => d

def Shape.defaultValueStr : Shape → Option String
  | .mk _ _ _ _ _ _ _ _ _ _ _ _ _ _ d _ _ _ => d

def Shape.xmlSerialization : Shape → Option XmlSer
  | .mk _ _ _ _ _ _ _ _ _ _ _ _ _ _ _ x _ _ => x

def Shape.mediaType : Shape → Option String
  | .mk _ _ _ _ _ _ _ _ _ _ _ _ _ _ _ _ m _ => m

def Shape.schemaEdge : Shape → Option Shape
  | .mk _ _ _ _ _ _ _ _ _ _ _ _ _ _ _ _ _ s => s

/-- `_hasType(node, iri)`. -/
def hasType (s : Shape) (t : String) : Bool := t ∈ s.types

/-- A shape with every edge absent; concrete test shapes are built from it
with the `with*` updaters below. -/
def baseShape : Shape :=
  .mk [] "" none none none none none none none none none none none none none none none none

def Shape.withTypes : Shape → List String → Shape
  | .mk _ b c d e f g h i j k l m n o p q r, a => .mk a b c d e f g h i j k l m n o p q r

def Shape.withId : Shape → String → Shape
  | .mk a _ c d e f g h i j k l m n o p q r, b => .mk a b c d e f g h i j k l m n o p q r

def Shape.withName : Shape → Option String → Shape
  | .mk a b _ d e f g h i j k l m n o p q r, c => .mk a b c d e f g h i j k l m n o p q r

def Shape.withSourceMap : Shape → Option SourceMap → Shape
  | .mk a b c _ e f g h i j k l m n o p q r, d => .mk a b c d e f g h i j k l m n o p q r

def Shape.withExamples : Shape → Option (List Shape) → Shape
  | .mk a b c d _ f g h i j k l m n o p q r, e => .mk a b c d e f g h i j k l m n o p q r

def Shape.withDocRaw : Shape → Option String → Shape
  | .mk a b c d e _ g h i j k l m n o p q r, f => .mk a b c d e f g h i j k l m n o p q r

def Shape.withStructuredValue : Shape → Option DataNode → Shape
  | .mk a b c d e f g _ i j k l m n o p q r, h => .mk a b c d e f g h i j k l m n o p q r

def Shape.withItems : Shape → Option (List Shape) → Shape
  | .mk a b c d e f g h _ j k l m n o p q r, i => .mk a b c d e f g h i j k l m n o p q r

def Shape.withAnyOf : Shape → Option (List Shape) → Shape
  | .mk a b c d e f g h i _ k l m n o p q r, j => .mk a b c d e f g h i j k l m n o p q r

def Shape.withProperties : Shape → Option (List Shape) → Shape
  | .mk a b c d e f g h i j _ l m n o p q r, k => .mk a b c d e f g h i j k l m n o p q r

def Shape.withRange : Shape → Option Shape → Shape
  | .mk a b c d e f g h i j k _ m n o p q r, l => .mk a b c d e f g h i j k l m n o p q r

def Shape.withDatatype : Shape → Option String → Shape
  | .mk a b c d e f g h i j k l _ n o p q r, m => .mk a b c d e f g h i j k l m n o p q r

def Shape.withDefaultValue : Shape → Option ValueNode → Shape
  | .mk a b c d e f g h i j k l m _ o p q r, n => .mk a b c d e f g h i j k l m n o p q r

def Shape.withDefaultValueStr : Shape → Option String → Shape
  | .mk a b c d e f g h i j k l m n _ p q r, o => .mk a b c d e f g h i j k l m n o p q r

def Shape.withXmlSerialization : Shape → Option XmlSer → Shape
  | .mk a b c d e f g h i j k l m n o _ q r, p => .mk a b c d e f g h i j k l m n o p q r

def Shape.withMediaType : Shape → Option String → Shape
  | .mk a b c d e f g h i j k l m n o p _ r, q => .mk a b c d e f g h i j k l m n o p q r

def Shape.withSchemaEdge : Shape → Option Shape → Shape
  | .mk a b c d e f g h i j k l m n o p q _, r => .mk a b c d e f g h i j k l m n o p q r

/-- The view model produced by the engine (`ExampleModel` in the source's
doc comment).  JS booleans left unassigned are modelled as `false`, and JS
object fields left unassigned as `none`. -/
inductive ExampleModel where
  | mk (hasRaw hasTitle hasUnion : Bool) (value : Option JsVal)
       (title : Option String) (raw : Option String)
       (values : Option (List ExampleModel)) (isScalar : Bool)

def ExampleModel.hasRaw : ExampleModel → Bool
  | .mk a _ _ _ _ _ _ _ => a

def ExampleModel.hasTitle : ExampleModel → Bool
  | .mk _ a _ _ _ _ _ _ => a

def ExampleModel.hasUnion : ExampleModel → Bool
  | .mk _ _ a _ _ _ _ _ => a

def ExampleModel.value : ExampleModel → Option JsVal
  | .mk _ _ _ a _ _ _ _ => a

def ExampleModel.title : ExampleModel → Option String
  | .mk _ _ _ _ a _ _ _ => a

def ExampleModel.raw : ExampleModel → Option String
  | .mk _ _ _ _ _ a _ _ => a

def ExampleModel.values : ExampleModel → Option (List ExampleModel)
  | .mk _ _ _ _ _ _ a _ => a

def ExampleModel.isScalar : ExampleModel → Bool
  | .mk _ _ _ _ _ _ _ a => a

/-- `data.hasTitle = true; data.title = name` in the Union Resolver. -/
def ExampleModel.withTitleSet : ExampleModel → String → ExampleModel
  | .mk hr _ hu v _ r vs isc, n => .mk hr true hu v (some n) r vs isc

/-- `item.value = …` (used by the JSON array post-processing). -/
def ExampleModel.withValue : ExampleModel → Option JsVal → ExampleModel
  | .mk hr ht hu _ t r vs isc, v => .mk hr ht hu v t r vs isc

/-- `item.values = …` (used by the JSON array post-processing). -/
def ExampleModel.withValues : ExampleModel → Option (List ExampleModel) → ExampleModel
  | .mk hr ht hu v t r _ isc, vs => .mk hr ht hu v t r vs isc

/-- Generation options.  The source mutates one shared object; the embedding
threads the updated value explicitly. -/
structure Opts where
  rawOnly : Bool
  noAuto : Bool
  typeName : Option String
  parentName : Option String
  typeId : Option String
  deriving DecidableEq, Repr

def defaultOpts : Opts := ⟨false, false, none, none, none⟩

/-- A JS value tree built by `_jsonFromStructure` /
`_jsonExampleFromProperties`. -/
inductive JsonV where
  | scalar (v : JsVal)
  | obj (fields : List (String × JsonV))
  | arr (items : List JsonV)

/-- JS truthiness of such a tree (`{}` and `[]` are truthy). -/
def JsonV.truthy : JsonV → Bool
  | .scalar v => v.truthy
  | .obj _ => true
  | .arr _ => true

/-- `typeof data === 'object'` (`null` included). -/
def JsonV.isObjectType : JsonV → Bool
  | .scalar .null => true
  | .scalar _ => false
  | .obj _ => true
  | .arr _ => true

/-- JS object assignment `o[k] = v`: overwrite in place or append. -/
def jsObjSet (fields : List (String × JsonV)) (k : String) (v : JsonV) :
    List (String × JsonV) :=
  match fields with
  | [] => [(k, v)]
  | (k0, v0) :: rest =>
    if k0 = k then (k0, v) :: rest else (k0, v0) :: jsObjSet rest k v

/-! ### Source-map and example-list helpers -/

/-- `_readJsonSchema` (raw value; truthiness is checked by the caller). -/
def readJsonSchema (schema : Shape) : Option String :=
  match schema.sourceMap with
  | none => none
  | some sm =>
    match sm.parsedJsonSchema with
    | none => none
    | some tracked => tracked.value

/-- `_processExamples`.  `computeExamples` always passes the `_ensureArray`
result, so only the array branches of the source are reachable. -/
def processExamples (examples : List Shape) : Option (List Shape) :=
  match examples with
  | [ex] => if hasType ex namedExamplesT then ex.examples else some [ex]
  | _ => some examples

/-- Keep / skip decision of `_listTypeExamples` for one example. -/
def listTypeExamplesKeep (tid longId : String) (ex : Shape) : Bool :=
  match ex.sourceMap with
  | none => true
  | some sm =>
    match sm.trackedElement with
    | none => true
    | some tracked =>
      match getStr tracked.value with
      | none => false
      | some v =>
        let ids := jsSplitChar ',' v
        longId ∈ ids ∨ tid ∈ ids

/-- `_listTypeExamples`. -/
def listTypeExamples (examples : List Shape) (typeId : Option String) :
    Option (List Shape) :=
  if jsTruthyS typeId then
    let tid := typeId.getD ""
    let longId := if strContainsJs tid "amf" then tid else "amf://id" ++ tid
    let result := examples.filter (listTypeExamplesKeep tid longId)
    if result.isEmpty then none else some result
  else some examples

/-- `_extractExampleRawValue` on a present `examples` edge.  An empty edge
or a `NamedExamples` wrapper without inner examples leaves the accessor with
`undefined`, whose `document:raw` read yields no value. -/
def extractExampleRawValue (edge : List Shape) : Option String :=
  match edge with
  | [] => none
  | e :: _ =>
    if hasType e namedExamplesT then
      match e.examples with
      | some (inner :: _) => inner.docRaw
      | _ => none
    else e.docRaw

/-- `_getTypeScalarValue`: the declared default value wins (even when its
literal is absent), otherwise the raw value of an attached example. -/
def getTypeScalarValue (range : Shape) : Option String :=
  match range.defaultValue with
  | some dv => dv.value
  | none =>
    match range.examples with
    | some edge => extractExampleRawValue edge
    | none => none

/-! ### Value coercion -/

/-- `_computeScalarType`.  A datatype node whose `@id` is falsy makes the
source fall back to the node object itself and then throw on
`id.indexOf`; an identifier that empties out makes `id[0].toUpperCase()`
throw.  Both are modelled as `.error`. -/
def computeScalarType (shape : Shape) : Except Unit (Option String) :=
  match shape.datatype with
  | none => .ok none
  | some dt0 =>
    if dt0.isEmpty then .error ()
    else
      let id1 := if jsIndexOf dt0 xmlSchemaNS ≠ -1 then
          jsSubstrFrom dt0 xmlSchemaNS.length else dt0
      let id2 := if jsIndexOf id1 shapesNS ≠ -1 then
          jsSubstrFrom id1 shapesNS.length else id1
      let ci := jsIndexOf id2 ":"
      let id3 := if ci ≠ -1 then jsSubstrFrom id2 ci.toNat else id2
      if id3.isEmpty then .error () else .ok (some (jsCapitalize id3))

/-- The numeric datatype identifiers of `_typeToValue` (raw IRIs; the
compacted forms coincide under the modelled context). -/
def numericTypeIris : List String :=
  [xmlSchemaNS ++ "integer", shapesNS ++ "integer",
   xmlSchemaNS ++ "number", shapesNS ++ "number",
   xmlSchemaNS ++ "long", shapesNS ++ "long",
   xmlSchemaNS ++ "double", shapesNS ++ "double",
   xmlSchemaNS ++ "float", shapesNS ++ "float"]

/-- `_typeToValue`. -/
def typeToValue (rt : JsRt) (value : String) (ty : String) : JsVal :=
  if ty = xmlSchemaNS ++ "boolean" ∨ ty = shapesNS ++ "boolean" then
    .bool (value = "true")
  else if ty = xmlSchemaNS ++ "nil" ∨ ty = shapesNS ++ "nil" then .null
  else if ty ∈ numericTypeIris then
    if value.isEmpty then .num 0
    else
      match rt.strToNum value with
      | none => .num 0
      | some q => .num q
  else .str value

/-- `_getTypedValue` on the fields of a `data:Scalar` node: the
`data:value` entry and the node's own `shacl:datatype` fallback. -/
def getTypedValue (rt : JsRt) (value? : Option DataVal) (dtEdge : Option String) :
    Option JsVal :=
  match value? with
  | none => none
  | some dv =>
    let v? : Option String :=
      match dv with
      | .plain s => some s
      | .typed v _ => v
    match v? with
    | none => none
    | some v =>
      if v.isEmpty then some (.str "")
      else
        let dtv : Option String :=
          match dv with
          | .plain _ => none
          | .typed _ ty => ty
        let dt : Option String :=
          match dtv with
          | some t => some t
          | none => dtEdge
        match dt with
        | none => some (.str v)
        | some t => some (typeToValue rt v t)

/-- `_computeJsonScalarValue`. -/
def computeJsonScalarValue (rt : JsRt) (range : Shape) : Except Unit JsVal :=
  match getStr (getTypeScalarValue range) with
  | none =>
    (computeScalarType range).map fun ty =>
      match ty with
      | some "Number" => .num 0
      | some "Integer" => .num 0
      | some "Long" => .num 0
      | some "Float" => .num 0
      | some "Double" => .num 0
      | some "Boolean" => .bool false
      | some "Nil" => .null
      | some "Null" => .null
      | _ => .str ""
  | some v =>
    match range.datatype with
    | none => .ok (.str v)
    | some dtId => .ok (typeToValue rt v dtId)

/-- `_dataNameFromKey`. -/
def dataNameFromKey (key : String) : String :=
  let i := jsIndexOf key "#"
  if i ≠ -1 then jsSubstrFrom key (i.toNat + 1)
  else
    let j := jsIndexOf key ":"
    if j ≠ -1 then jsSubstrFrom key (j.toNat + 1) else key

/-- `_readDataType` (the `@id` of the datatype node mapped to its local
name). -/
def readDataType (s : Shape) : Option String := s.datatype.map dataNameFromKey

/-! ### `_jsonFromStructure` -/

/-- The object branch of `_jsonFromStructure`: iterate the data-prefixed
keys, generate each value, strip the prefix and a leading colon, URI-decode
(failures are caught and ignored), and assign. -/
def jsonFromStructProps (rt : JsRt) (jfs : DataNode → Option JsonV)
    (props : List (String × DataNode)) : List (String × JsonV) :=
  props.foldl
    (fun acc kv =>
      if jsIndexOf kv.1 dataNS ≠ 0 then acc
      else
        match jfs kv.2 with
        | none => acc
        | some tmp =>
          let k1 := jsReplaceFirst kv.1 dataNS
          let k2 := if k1.toList.head? = some ':' then jsSubstrFrom k1 1 else k1
          let k3 :=
            match rt.decodeUriComp k2 with
            | some dk => dk
            | none => k2
          jsObjSet acc k3 tmp)
    []

/-- `_jsonFromStructure` (with `_jsonFromStructureValue` inlined at the two
call sites). -/
def jsonFromStructure (rt : JsRt) : Nat → DataNode → Option JsonV
  | 0, _ => none
  | fuel + 1, d =>
    match d with
    | .scalar v dt => (getTypedValue rt v dt).map .scalar
    | .obj props => some (.obj (jsonFromStructProps rt (jsonFromStructure rt fuel) props))
    | .arr members =>
      match members with
      | some items => some (.arr (items.filterMap (jsonFromStructure rt fuel)))
      | none => some (.arr [])
    | .other _ => none

/-! ### `JSON.stringify(·, null, 2)` -/

def hexDigit (n : Nat) : Char :=
  if n < 10 then Char.ofNat (48 + n) else Char.ofNat (97 + n - 10)

def hex4 (n : Nat) : String :=
  ⟨[hexDigit (n / 4096 % 16), hexDigit (n / 256 % 16),
    hexDigit (n / 16 % 16), hexDigit (n % 16)]⟩

def jsonEscapeChar (c : Char) : String :=
  if c = '"' then "\\\""
  else if c = '\\' then "\\\\"
  else if c = '\n' then "\\n"
  else if c = '\r' then "\\r"
  else if c = '\t' then "\\t"
  else if c.toNat < 32 then "\\u" ++ hex4 c.toNat
  else String.singleton c

def jsonQuote (s : String) : String :=
  "\"" ++ String.join (s.toList.map jsonEscapeChar) ++ "\""

def spaces (n : Nat) : String := ⟨List.replicate n ' '⟩

/-- `JSON.stringify(v, null, 2)`.  A `NaN` number serializes as `null`. -/
def jsonStringify (rt : JsRt) : Nat → Nat → JsonV → String
  | 0, _, _ => ""
  | fuel + 1, ind, v =>
    match v with
    | .scalar (.str s) => jsonQuote s
    | .scalar (.num q) => rt.numToString q
    | .scalar (.bool b) => if b then "true" else "false"
    | .scalar .null => "null"
    | .scalar .nan => "null"
    | .obj [] => "{}"
    | .obj fields =>
      "\x7b\n" ++
        String.intercalate ",\n"
          (fields.map fun kv =>
            spaces (ind + 2) ++ jsonQuote kv.1 ++ ": " ++
              jsonStringify rt fuel (ind + 2) kv.2) ++
        "\n" ++ spaces ind ++ "\x7d"
    | .arr [] => "[]"
    | .arr items =>
      "[\n" ++
        String.intercalate ",\n"
          (items.map fun x =>
            spaces (ind + 2) ++ jsonStringify rt fuel (ind + 2) x) ++
        "\n" ++ spaces ind ++ "]"

/-! ### Tree-markup document model

The DOM primitives (`createDocument`, `createElement`, `createTextNode`,
`appendChild`, `setAttribute`, `XMLSerializer`) are the external Tree
Builder capability; they are modelled as a non-validating immutable tree.
In-place DOM mutation becomes explicit state passing, preserving the
source's mutation order. -/

mutual
inductive XmlElem where
  | mk (tag : String) (attrs : List (String × String)) (children : List XmlNode)

inductive XmlNode where
  | elem (e : XmlElem)
  | text (s : String)
end

def XmlElem.tag : XmlElem → String
  | .mk t _ _ => t

def XmlElem.attrs : XmlElem → List (String × String)
  | .mk _ a _ => a

def XmlElem.children : XmlElem → List XmlNode
  | .mk _ _ c => c

def setAttrList (attrs : List (String × String)) (k v : String) :
    List (String × String) :=
  match attrs with
  | [] => [(k, v)]
  | (k0, v0) :: rest =>
    if k0 = k then (k0, v) :: rest else (k0, v0) :: setAttrList rest k v

def XmlElem.setAttribute (e : XmlElem) (k v : String) : XmlElem :=
  .mk e.tag (setAttrList e.attrs k v) e.children

def XmlElem.appendChild (e : XmlElem) (n : XmlNode) : XmlElem :=
  .mk e.tag e.attrs (e.children ++ [n])

def xmlEscapeText (s : String) : String :=
  String.join (s.toList.map fun c =>
    if c = '&' then "&amp;" else if c = '<' then "&lt;"
    else if c = '>' then "&gt;" else String.singleton c)

def xmlEscapeAttr (s : String) : String :=
  String.join (s.toList.map fun c =>
    if c = '&' then "&amp;" else if c = '<' then "&lt;"
    else if c = '>' then "&gt;" else if c = '"' then "&quot;"
    else String.singleton c)

/-- `XMLSerializer().serializeToString` on the modelled tree. -/
def serializeXml : Nat → XmlElem → String
  | 0, _ => ""
  | fuel + 1, e =>
    let attrsStr := String.join (e.attrs.map fun kv =>
      " " ++ kv.1 ++ "=\"" ++ xmlEscapeAttr kv.2 ++ "\"")
    match e.children with
    | [] => "<" ++ e.tag ++ attrsStr ++ "/>"
    | cs =>
      "<" ++ e.tag ++ attrsStr ++ ">" ++
        String.join (cs.map fun n =>
          match n with
          | .text s => xmlEscapeText s
          | .elem c => serializeXml fuel c) ++
        "</" ++ e.tag ++ ">"

/-! ### `formatXml`

The three preprocessing regex replacements are modelled as direct string
transformations with the exact greedy-match semantics of the source
patterns: `/(>)\s*(<)(\/*)/g` inserts a newline between adjacent tags,
`/ *(.*) +\n/g` rewrites a line with trailing spaces by dropping its
leading spaces and one trailing space, and `/(<.+>)(.+\n)/g` breaks a line
after the last `>` (past the first `<`) that still has text behind it. -/

/-- `/(>)\s*(<)(\/*)/g → '$1\n$2$3'`.  `pending` buffers whitespace seen
after a `>`, emitted unchanged unless a `<` follows. -/
def collapseInterTagAux : List Char → Bool → List Char → List Char
  | pending, _, [] => pending.reverse
  | pending, afterGt, c :: rest =>
    if afterGt then
      if isJsWs c then collapseInterTagAux (c :: pending) true rest
      else if c = '<' then '\n' :: '<' :: collapseInterTagAux [] false rest
      else pending.reverse ++ c :: collapseInterTagAux [] (c = '>') rest
    else if c = '>' then '>' :: collapseInterTagAux [] true rest
    else c :: collapseInterTagAux [] false rest

def collapseInterTag (s : String) : String :=
  (collapseInterTagAux [] false s.toList).asString

/-- Apply `f` to every `\n`-terminated line, leaving the final unterminated
segment untouched (the `\n` in the patterns). -/
def mapTerminatedLines (f : String → String) (s : String) : String :=
  match (jsSplitChar '\n' s).reverse with
  | [] => s
  | last :: revInit =>
    String.intercalate "\n" ((revInit.reverse.map f) ++ [last])

def trailingSpaceFix (line : String) : String :=
  if jsEndsWith line " " then
    let t := (line.toList.dropWhile (· = ' ')).asString
    if jsEndsWith t " " then jsDropRight t 1 else t
  else line

def containsSub (l pat : List Char) : Bool :=
  jsIndexOfAux pat l 0 ≠ -1

def firstSubIdx (l pat : List Char) : Option Nat :=
  let k := jsIndexOfAux pat l 0
  if k < 0 then none else some k.toNat

def tagTextBreak (line : String) : String :=
  let l := line.toList
  match l.findIdx? (· = '<') with
  | none => line
  | some i =>
    let cands := (List.range l.length).filter fun j =>
      i + 2 ≤ j ∧ j + 1 < l.length ∧ l.getD j ' ' = '>'
    match cands.getLast? with
    | none => line
    | some j => (l.take (j + 1)).asString ++ "\n" ++ (l.drop (j + 1)).asString

inductive LineType where
  | single
  | closing
  | opening
  | other
  deriving DecidableEq, Repr

def transitionDelta : LineType → LineType → Int
  | .single, .closing => -2
  | .closing, .closing => -2
  | .other, .closing => -2
  | .opening, .single => 2
  | .opening, .opening => 2
  | .opening, .other => 2
  | _, _ => 0

/-- `/<.+\/>/`. -/
def matchesSingle (l : List Char) : Bool :=
  match l.findIdx? (· = '<') with
  | none => false
  | some i => containsSub (l.drop (i + 2)) ['/', '>']

/-- `/<\/.+>/`. -/
def matchesClosing (l : List Char) : Bool :=
  match firstSubIdx l ['<', '/'] with
  | none => false
  | some p => '>' ∈ l.drop (p + 3)

/-- `/<[^!].*>/`. -/
def matchesOpening : List Char → Bool
  | [] => false
  | '<' :: c :: rest =>
    if c ≠ '!' ∧ '>' ∈ rest then true else matchesOpening (c :: rest)
  | _ :: rest => matchesOpening rest

def classifyLine (l : List Char) : LineType :=
  if matchesSingle l then .single
  else if matchesClosing l then .closing
  else if matchesOpening l then .opening
  else .other

def formatXmlLoop : List String → LineType → Int → String → String
  | [], _, _, acc => acc
  | ln :: rest, lastType, indent, acc =>
    if strContainsJs ln "<?xml" then
      formatXmlLoop rest lastType indent (acc ++ ln ++ "\n")
    else
      let ty := classifyLine ln.toList
      let indent' := indent + transitionDelta lastType ty
      let acc' :=
        if lastType = .opening ∧ ty = .closing then jsDropRight acc 1 ++ ln ++ "\n"
        else acc ++ spaces indent'.toNat ++ ln ++ "\n"
      formatXmlLoop rest ty indent' acc'

def formatXml (xml : String) : String :=
  let x1 := collapseInterTag xml
  let x2 := mapTerminatedLines trailingSpaceFix x1
  let x3 := mapTerminatedLines tagTextBreak x2
  formatXmlLoop (jsSplitChar '\n' x3) .other 0 ""

/-! ### Structured-value XML synthesis -/

/-- `_normalizeXmlTagName`: `name.replace(/[^a-zA-Z0-9-_]/g, '')`. -/
def isTagChar (c : Char) : Bool :=
  c.isAlpha ∨ c.isDigit ∨ c = '-' ∨ c = '_'

def normalizeXmlTagName (name : String) : String :=
  (name.toList.filter isTagChar).asString

/-- JS string coercion of a structured value (text-node creation); nested
objects and arrays only arise on deprecated legacy paths. -/
def jsonVDisp (rt : JsRt) : Nat → JsonV → String
  | 0, _ => ""
  | fuel + 1, v =>
    match v with
    | .scalar x => jsValDisp rt x
    | .obj _ => "[object Object]"
    | .arr items => String.intercalate "," (items.map (jsonVDisp rt fuel))

/-- The non-scalar branch of `_computeExampleFromStructuredValue`
(deprecated in the source and unreachable from the engine paths, which
only call `_computeStructuredExampleValue` on scalar nodes).  JS `push` /
assignment of `undefined` values is modelled by skipping them. -/
def computeExampleFromStructuredValueAux (recur : DataNode → Except Unit (Option JsonV))
    (model : DataNode) : Except Unit (Option JsonV) :=
  match model with
  | .scalar v _ =>
    -- `_computeStructuredExampleValue(this._getValue(model, data.value))`:
    -- the extracted literal string, with `''`/absent returning `undefined`.
    let s : Option String :=
      match v with
      | some (.plain s) => some s
      | some (.typed sv _) => sv
      | none => none
    match getStr s with
    | none => .ok none
    | some str => .ok (some (.scalar (.str str)))
  | .obj props => do
    let fields ← props.foldlM
      (fun acc kv => do
        let v ← recur kv.2
        match v with
        | none => pure acc
        | some jv =>
          let name := jsSubstrFrom kv.1 ((jsIndexOf kv.1 "#").toNat + 1)
          pure (jsObjSet acc name jv))
      []
    .ok (some (.obj fields))
  | .arr members =>
    -- `Object.keys` yields the single member edge; `model[key][0]` picks
    -- the first member only.
    match members with
    | some (m :: _) => do
      let v ← recur m
      match v with
      | none => .ok (some (.arr []))
      | some jv => .ok (some (.arr [jv]))
    | _ => .ok (some (.arr []))
  | .other _ => .ok (some (.arr []))

/-- `_computeStructuredExampleValue` on a data node.  A scalar node without
a `data:value` edge makes `ensureArray(undefined)[0]` throw. -/
def computeStructuredExampleValue (rt : JsRt) : Nat → DataNode → Except Unit (Option JsonV)
  | 0, _ => .ok none
  | fuel + 1, model =>
    match model with
    | .scalar value dtEdge =>
      match value with
      | none => .error ()
      | some dv =>
        let v : Option String :=
          match dv with
          | .plain _ => none
          | .typed sv _ => sv
        let ty0 : Option String :=
          match dv with
          | .plain _ => none
          | .typed _ t => t
        let ty : Option String :=
          match ty0 with
          | some t => some t
          | none => dtEdge
        if ty = some (xmlSchemaNS ++ "boolean") then
          .ok (some (.scalar (.bool (v = some "true"))))
        else if ty = some (xmlSchemaNS ++ "integer") ∨ ty = some (xmlSchemaNS ++ "long") ∨
            ty = some (xmlSchemaNS ++ "double") ∨ ty = some (xmlSchemaNS ++ "float") ∨
            ty = some (shapesNS ++ "number") then
          match v with
          | none => .ok (some (.scalar .nan))
          | some s =>
            match rt.strToNum s with
            | none => .ok (some (.scalar .nan))
            | some q => .ok (some (.scalar (.num q)))
        else
          match v with
          | none => .ok none
          | some s => .ok (some (.scalar (.str s)))
    | _ => computeExampleFromStructuredValueAux (computeStructuredExampleValue rt fuel) model

/-- `_processDataArrayProperties`: a data array node without an
`rdf:member` edge makes `items.length` throw. -/
def processDataArrayProperties
    (recur : XmlElem → DataNode → Option String → Except Unit XmlElem)
    (element : XmlElem) (property : DataNode) (name : String) :
    Except Unit XmlElem :=
  let childName :=
    if jsEndsWith name "es" then jsDropRight name 2
    else if jsEndsWith name "s" then jsDropRight name 1
    else name
  match property with
  | .arr (some items) =>
    items.foldlM (fun el item => recur el item (some childName)) element
  | _ => .error ()

/-- `_processDataObjectProperties` (only called on data object nodes). -/
def processDataObjectProperties
    (recur : XmlElem → DataNode → Option String → Except Unit XmlElem)
    (element : XmlElem) (property : DataNode) : Except Unit XmlElem :=
  match property with
  | .obj props =>
    props.foldlM
      (fun el kv =>
        if jsIndexOf kv.1 dataNS ≠ 0 then pure el
        else recur el kv.2 (some (dataNameFromKey kv.1)))
      element
  | _ => .ok element

/-- `_xmlProcessDataProperty`. -/
def xmlProcessDataProperty (rt : JsRt) : Nat → XmlElem → DataNode → Option String → Except Unit XmlElem
  | 0, node, _, _ => .ok node
  | fuel + 1, node, property, name =>
    match getStr name with
    | none => .ok node
    | some nm0 =>
      let nm := normalizeXmlTagName nm0
      let element : XmlElem := ⟨nm, [], []⟩
      match property with
      | .scalar _ _ => do
        let value ← computeStructuredExampleValue rt (fuel + 1) property
        let element :=
          match value with
          | none => element
          | some jv => element.appendChild (.text (jsonVDisp rt (fuel + 1) jv))
        .ok (node.appendChild (.elem element))
      | .arr _ => do
        let element ← processDataArrayProperties
          (xmlProcessDataProperty rt fuel) element property nm
        .ok (node.appendChild (.elem element))
      | .obj _ => do
        let element ← processDataObjectProperties
          (xmlProcessDataProperty rt fuel) element property
        .ok (node.appendChild (.elem element))
      | .other atValue =>
        -- `else if (property['@value'])`: append a text node to the parent
        -- and skip the freshly created element.
        match getStr atValue with
        | some v => .ok (node.appendChild (.text v))
        | none => .ok (node.appendChild (.elem element))

/-- `_xmlFromExamples`. -/
def xmlFromExamples (rt : JsRt) (fuel : Nat) (node : XmlElem) (ex : Shape)
    (propertyName : Option String) : Except Unit XmlElem :=
  match ex.structuredValue with
  | none => .ok node
  | some st => xmlProcessDataProperty rt fuel node st propertyName

/-! ### Type-driven XML synthesis -/

/-- The name/text computation of `_appendXmlElement`: the sanitized (note:
`[^a-zA-Z0-9-]`, so underscores are removed too) element name and the text
content (declared `defaultValueStr`, else an attached example's raw value,
else a single space). -/
def isElemNameChar (c : Char) : Bool :=
  c.isAlpha ∨ c.isDigit ∨ c = '-'

def appendXmlElementCore (range : Shape) : Option (String × String) :=
  match getStr range.name with
  | none => none
  | some name0 =>
    let nv1 := getStr range.defaultValueStr
    let nv2 : Option String :=
      match nv1 with
      | some v => some v
      | none =>
        match range.examples with
        | some edge => extractExampleRawValue edge
        | none => none
    let nodeValue :=
      match getStr nv2 with
      | none => " "
      | some v => v
    some ((name0.toList.filter isElemNameChar).asString, nodeValue)

/-- `_appendXmlElement`: returns the updated parent and the created
element (`none` when the range has no usable name). -/
def appendXmlElement (node : XmlElem) (range : Shape) : XmlElem × Option XmlElem :=
  match appendXmlElementCore range with
  | none => (node, none)
  | some (nm, tx) =>
    let el : XmlElem := ⟨nm, [], [.text tx]⟩
    (node.appendChild (.elem el), some el)

/-- `_appendXmlAttribute`: only the *first* `?` of the name is removed
(JS `String.replace` with a string pattern); no other sanitization is
applied to attribute names. -/
def appendXmlAttribute (node : XmlElem) (range : Shape) (ser : XmlSer) : XmlElem :=
  let name? : Option String :=
    match getStr ser.xmlName with
    | some n => some n
    | none => getStr range.name
  match name? with
  | none => node
  | some nm0 =>
    let nm := if strContainsJs nm0 "?" then jsReplaceFirst nm0 "?" else nm0
    let value :=
      match getStr (readDataType range) with
      | none => ""
      | some v => v
    node.setAttribute nm value

/-- `_xmlProcessUnionScalarProperty`: the source creates an element with a
text child but never appends it to the tree, so the parent is unchanged. -/
def xmlProcessUnionScalarProperty (node : XmlElem) (_property _shape : Shape) : XmlElem :=
  node

/-- `_appendXmlElements`.  When the range has no name the source processes
the properties against an `undefined` element; any such processing throws
on the first DOM access, modelled conservatively as a throw whenever the
property list is non-empty. -/
def appendXmlElements (recur : XmlElem → Shape → Except Unit XmlElem)
    (node : XmlElem) (range : Shape) : Except Unit XmlElem :=
  let props := range.properties
  match appendXmlElementCore range with
  | none =>
    match props with
    | none => .ok node
    | some [] => .ok node
    | some (_ :: _) => .error ()
  | some (nm, tx) =>
    let el0 : XmlElem := ⟨nm, [], [.text tx]⟩
    match props with
    | none => .ok (node.appendChild (.elem el0))
    | some ps => do
      let el ← ps.foldlM recur el0
      .ok (node.appendChild (.elem el))

/-- The per-item loop of `_appendXmlArray`.  In the wrapped case the source
re-binds `node` to each freshly created item element, nesting successive
items inside the previous one. -/
def appendXmlArrayLoop (recur : XmlElem → Shape → Except Unit XmlElem) :
    List Shape → XmlElem → Bool → Except Unit XmlElem
  | [], node, _ => .ok node
  | prop :: rest, node, isWrapped =>
    if isWrapped then
      match getStr prop.name with
      | none => appendXmlArrayLoop recur rest node isWrapped
      | some nm => do
        let el0 : XmlElem := ⟨nm, [], []⟩
        let el1 ← recur el0 prop
        let el2 ← appendXmlArrayLoop recur rest el1 isWrapped
        .ok (node.appendChild (.elem el2))
    else do
      let node' ← recur node prop
      appendXmlArrayLoop recur rest node' isWrapped

/-- `_appendXmlArray`.  In the wrapped case `node.appendChild(element)` on
the `undefined` result of a nameless `_appendXmlElement` throws. -/
def appendXmlArray (recur : XmlElem → Shape → Except Unit XmlElem)
    (node : XmlElem) (range : Shape) (isWrapped : Bool) : Except Unit XmlElem :=
  if isWrapped then
    match appendXmlElementCore range with
    | none => .error ()
    | some (nm, tx) =>
      let el0 : XmlElem := ⟨nm, [], [.text tx]⟩
      match range.items with
      | none => .ok (node.appendChild (.elem el0))
      | some items => do
        let el ← appendXmlArrayLoop recur items el0 true
        .ok (node.appendChild (.elem el))
  else
    match range.items with
    | none => .ok node
    | some items => appendXmlArrayLoop recur items node false

/-- The tail of `_xmlProcessProperty` after the serialization checks. -/
def xmlProcessPropertyTail (recur : XmlElem → Shape → Except Unit XmlElem)
    (node : XmlElem) (range : Shape) (isWrapped : Bool) : Except Unit XmlElem :=
  if hasType range nodeShapeT then appendXmlElements recur node range
  else if hasType range arrayShapeT then appendXmlArray recur node range isWrapped
  else .ok (appendXmlElement node range).1

/-- `_xmlProcessProperty`. -/
def xmlProcessProperty (rt : JsRt) : Nat → XmlElem → Shape → Except Unit XmlElem
  | 0, node, _ => .ok node
  | fuel + 1, node, property =>
    let recur := xmlProcessProperty rt fuel
    if hasType property nodeShapeT then
      match property.properties with
      | none => .ok node
      | some ps => ps.foldlM recur node
    else
      match property.range with
      | none => .ok node
      | some range =>
        let serialization := range.xmlSerialization
        match range.examples with
        | some (ex :: _) =>
          let name : Option String :=
            match getStr (serialization.bind XmlSer.xmlName) with
            | some n => some n
            | none => range.name
          xmlFromExamples rt fuel node ex name
        | _ =>
          if hasType range unionShapeT then
            match range.anyOf with
            | some (sh :: _) =>
              if hasType sh scalarShapeT then
                .ok (xmlProcessUnionScalarProperty node property sh)
              else recur node sh
            | _ => .ok node
          else
            match serialization with
            | some ser =>
              if ser.xmlAttribute then .ok (appendXmlAttribute node range ser)
              else xmlProcessPropertyTail recur node range ser.xmlWrapped
            | none => xmlProcessPropertyTail recur node range false

/-- `_xmlExampleFromProperties`. -/
def xmlExampleFromProperties (rt : JsRt) (fuel : Nat) (properties : List Shape)
    (typeName : String) (parentType : Option String) : Except Unit String := do
  let tn := normalizeXmlTagName typeName
  match getStr parentType with
  | some p0 =>
    let p := normalizeXmlTagName p0
    let main ← properties.foldlM (xmlProcessProperty rt fuel) ⟨tn, [], []⟩
    .ok (serializeXml fuel ⟨p, [], [.elem main]⟩)
  | none =>
    let main ← properties.foldlM (xmlProcessProperty rt fuel) ⟨tn, [], []⟩
    .ok (serializeXml fuel main)

/-- `_xmlFromStructure` (the caller guarantees the structure is not a data
scalar; non-object nodes expose no data-prefixed keys). -/
def xmlFromStructure (rt : JsRt) (fuel : Nat) (structure_ : DataNode)
    (opts : Opts) : Except Unit String := do
  let typeName :=
    match getStr opts.typeName with
    | some t => t
    | none => unknownTypeName
  let tn := normalizeXmlTagName typeName
  let root : XmlElem := ⟨tn, [], []⟩
  let root ←
    match structure_ with
    | .obj props =>
      props.foldlM
        (fun el kv =>
          if jsIndexOf kv.1 dataNS ≠ 0 then pure el
          else xmlProcessDataProperty rt fuel el kv.2 (some (dataNameFromKey kv.1)))
        root
    | _ => pure root
  let value := serializeXml fuel root
  .ok (formatXml ("<?xml version=\"1.0\" encoding=\"UTF-8\"?>" ++ value))

/-! ### JSON synthesis from type properties -/

/-- `example.hasRaw = true; example.raw = jsonSchema` (mutation in
`_exampleFromJsonSchema`). -/
def ExampleModel.withRawSet : ExampleModel → String → ExampleModel
  | .mk _ ht hu v t _ vs isc, r => .mk true ht hu v t (some r) vs isc

/-- `_jsonExampleFromProperties`, parametrized by the recursive value
generator and the structure walker. -/
def jsonExampleFromPropertiesAux (cjpv : Shape → Except Unit (Option JsonV))
    (jfs : DataNode → Option JsonV) (properties : List Shape) :
    Except Unit (List (String × JsonV)) :=
  properties.foldlM
    (fun acc property => do
      match getStr property.name with
      | none => pure acc
      | some name =>
        match property.range with
        | none => pure acc
        | some range =>
          match range.examples with
          | some exs =>
            pure (exs.foldl
              (fun acc2 ex =>
                match ex.structuredValue with
                | none => jsObjSet acc2 name (.scalar (.str ""))
                | some st =>
                  match jfs st with
                  | none => acc2
                  | some data => jsObjSet acc2 name data)
              acc)
          | none => do
            let v ← cjpv range
            let value :=
              match v with
              | none => JsonV.scalar (.str "")
              | some jv => jv
            pure (jsObjSet acc name value))
    []

/-- The alternative loop of `_computeJsonUnionValue`. -/
def computeJsonUnionValueLoop (jefp : List Shape → Except Unit (List (String × JsonV)))
    (typeName : Option String) : List Shape → Except Unit (Option JsonV)
  | [] => .ok none
  | item :: rest =>
    if jsTruthyS typeName ∧ item.name ≠ typeName then
      computeJsonUnionValueLoop jefp typeName rest
    else if hasType item nodeShapeT then
      match item.properties with
      | some ps => (jefp ps).map (fun fields => some (.obj fields))
      | none => computeJsonUnionValueLoop jefp typeName rest
    else computeJsonUnionValueLoop jefp typeName rest

/-- `_computeJsonProperyValue` (sic), with `_computeJsonUnionValue`,
`_computeJsonObjectValue` and `_computeJsonArrayValue` inlined as the
corresponding branches. -/
def computeJsonProperyValue (rt : JsRt) : Nat → Shape → Option String → Except Unit (Option JsonV)
  | 0, _, _ => .ok none
  | fuel + 1, range, typeName =>
    let jefp := fun ps =>
      jsonExampleFromPropertiesAux (fun r => computeJsonProperyValue rt fuel r none)
        (jsonFromStructure rt fuel) ps
    if hasType range scalarShapeT then
      (computeJsonScalarValue rt range).map (fun v => some (.scalar v))
    else if hasType range unionShapeT then
      match range.anyOf with
      | none => .ok none
      | some list => computeJsonUnionValueLoop jefp typeName list
    else if hasType range nodeShapeT then
      match range.properties with
      | some (p :: ps) => (jefp (p :: ps)).map (fun fields => some (.obj fields))
      | _ => .ok none
    else if hasType range arrayShapeT then
      match range.items with
      | none => .ok none
      | some items => do
        let vals ← items.foldlM
          (fun acc item => do
            let v ← computeJsonProperyValue rt fuel item none
            pure (match v with
              | none => acc
              | some jv => acc ++ [jv]))
          []
        .ok (some (.arr vals))
    else if hasType range nilShapeT then .ok (some (.scalar .null))
    else .ok none

def jsonExampleFromProperties (rt : JsRt) (fuel : Nat) (properties : List Shape) :
    Except Unit (List (String × JsonV)) :=
  jsonExampleFromPropertiesAux (fun r => computeJsonProperyValue rt fuel r none)
    (jsonFromStructure rt fuel) properties

/-- The `result` computation of `_exampleFromProperties`. -/
def exampleFromPropertiesValue (rt : JsRt) (fuel : Nat) (properties : List Shape)
    (mime : String) (tn : String) (parentType : Option String) :
    Except Unit (Option String) :=
  if strContainsJs mime "json" then do
    let fields ← jsonExampleFromProperties rt fuel properties
    pure (some (jsonStringify rt (fuel + 1) 0 (.obj fields)))
  else if strContainsJs mime "xml" then do
    let r ← xmlExampleFromProperties rt fuel properties tn parentType
    pure (if r.isEmpty then some r
      else some (formatXml ("<?xml version=\"1.0\" encoding=\"UTF-8\"?>" ++ r)))
  else pure none

/-- `_exampleFromProperties`. -/
def exampleFromProperties (rt : JsRt) (fuel : Nat) (properties : List Shape)
    (mime : String) (typeName parentType : Option String) :
    Except Unit (Option ExampleModel) := do
  let result? ← exampleFromPropertiesValue rt fuel properties mime
    (match getStr typeName with
     | some t => t
     | none => unknownTypeName) parentType
  match getStr result? with
  | some r => .ok (some (.mk false false false (some (.str r)) none none none false))
  | none => .ok none

/-- `_exampleFromJsonSchema`. -/
def exampleFromJsonSchema (rt : JsRt) (fuel : Nat) (schema : Shape)
    (jsonSchema : String) : Except Unit (List ExampleModel) := do
  let example? : Option ExampleModel ←
    match schema.properties with
    | some (p :: ps) =>
      exampleFromProperties rt fuel (p :: ps) "application/json"
        (some (match getStr schema.name with
          | some t => t
          | none => unknownTypeName)) none
    | _ => pure none
  match example? with
  | some m => .ok [m.withRawSet jsonSchema]
  | none => .ok [.mk false false false (some (.str jsonSchema)) none none none false]

/-! ### `_generateFromExample` -/

/-- The tail of `_generateFromExample` after the raw-text shortcuts: the
structured-value synthesis with the retained raw text (`hasRawB`/`rawKept`
are `result.hasRaw = true; result.raw = raw` when reached through the
fallthrough, `false`/`none` when the example had no raw text). -/
def generateFromExampleStructure (rt : JsRt) (fuel : Nat) (ex : Shape)
    (opts : Opts) (hasRawB : Bool) (rawKept : Option String)
    (hasTitle : Bool) (title : Option String) (isJson isXml : Bool) :
    Except Unit (Option ExampleModel) :=
  match ex.structuredValue with
  | none =>
    let v : String :=
      match rawKept with
      | some r => r
      | none => ""
    .ok (some (.mk hasRawB hasTitle false (some (.str v)) title rawKept none false))
  | some st =>
    match st with
    | .scalar value dtEdge =>
      .ok (some (.mk hasRawB hasTitle false (getTypedValue rt value dtEdge) title rawKept none true))
    | _ =>
      if isJson then
        match jsonFromStructure rt fuel st with
        | some jv =>
          if jv.truthy then
            let v : JsVal :=
              match jv with
              | .scalar x => x
              | .obj _ => .str (jsonStringify rt fuel 0 jv)
              | .arr _ => .str (jsonStringify rt fuel 0 jv)
            .ok (some (.mk hasRawB hasTitle false (some v) title rawKept none false))
          else .ok none
        | none => .ok none
      else if isXml then do
        let data ← xmlFromStructure rt fuel st opts
        .ok (some (.mk hasRawB hasTitle false (some (.str data)) title rawKept none false))
      else
        let v : String :=
          match rawKept with
          | some r => r
          | none => ""
        .ok (some (.mk hasRawB hasTitle false (some (.str v)) title rawKept none false))

/-- The raw-text extraction of `_generateFromExample`: `document:raw`
with a `shacl:raw` fallback, truthiness-normalized. -/
def exampleRawValue (ex : Shape) : Option String :=
  match getStr ex.docRaw with
  | some r => some r
  | none => getStr ex.shaclRaw

/-- The title extraction of `_generateFromExample`: a name that begins with
the generated placeholder convention `example_` is discarded. -/
def exampleTitleValue (ex : Shape) : Option String :=
  match getStr ex.name with
  | some t => if jsStartsWith t "example_" then none else some t
  | none => none

def generateFromExample (rt : JsRt) (fuel : Nat) (ex : Shape)
    (mime : Option String) (opts : Opts) : Except Unit (Option ExampleModel) :=
  let raw : Option String := exampleRawValue ex
  let title : Option String := exampleTitleValue ex
  let hasTitle := title.isSome
  if opts.rawOnly ∧ raw = none then .ok none
  else if opts.rawOnly then
    .ok (some (.mk false hasTitle false (raw.map .str) title none none false))
  else
    let isJson := strContainsJs (mime.getD "") "json"
    let isXml := (! isJson) && strContainsJs (mime.getD "") "xml"
    match raw with
    | some r =>
      if isJson ∧ rt.jsonParseTypeOf r = some .object then
        .ok (some (.mk false hasTitle false (some (.str r)) title none none false))
      else if isXml = true ∧ (jsTrim r).toList.head? = some '<' then
        .ok (some (.mk false hasTitle false (some (.str r)) title none none false))
      else
        generateFromExampleStructure rt fuel ex opts true (some r) hasTitle title isJson isXml
    | none =>
      generateFromExampleStructure rt fuel ex opts false none hasTitle title isJson isXml

/-! ### `_computeFromExamples` and JSON array post-processing -/

/-- `_computeFromExamples`.  When `_processExamples` yields `undefined`
(a `NamedExamples` wrapper without inner examples), `_listTypeExamples`
throws on `examples.length` for a truthy `typeId` and returns `undefined`
otherwise. -/
def computeFromExamples (rt : JsRt) (fuel : Nat) (examples : List Shape)
    (mime : Option String) (opts : Opts) : Except Unit (Option (List ExampleModel)) :=
  match processExamples examples with
  | none => if jsTruthyS opts.typeId then .error () else .ok none
  | some exs =>
    match listTypeExamples exs opts.typeId with
    | none => .ok none
    | some l => do
      let results ← l.foldlM
        (fun acc sh => do
          let v ← generateFromExample rt fuel sh mime opts
          pure (match v with
            | some m => acc ++ [m]
            | none => acc))
        []
      .ok (some results)

/-- One item of `_processJsonArrayExamples`: for a union result only
`values[0]` is adjusted; a union result with an empty `values` list makes
`item.values[0].value` throw.  The guards only test `!== undefined`, so a
JS `null` value (a nil scalar's synthesized value) makes the `value[0]`
index access throw, while an absent (`undefined`) value skips the item. -/
def processJsonArrayExamplesItem (rt : JsRt) (item : ExampleModel) :
    Except Unit ExampleModel :=
  match item.values with
  | some [] => .error ()
  | some (v0 :: rest) =>
    match v0.value with
    | some v =>
      if v = .null then .error ()
      else if jsValFirstChar v ≠ some '[' then
        let v1 := if v = .str "" then JsVal.str "\"\"" else v
        .ok (item.withValues
          (some ((v0.withValue (some (.str ("[" ++ jsValDisp rt v1 ++ "]")))) :: rest)))
      else .ok item
    | none => .ok item
  | none =>
    match item.value with
    | some v =>
      if v = .null then .error ()
      else if jsValFirstChar v ≠ some '[' then
        let v1 := if v = .str "" then JsVal.str "\"\"" else v
        .ok (item.withValue (some (.str ("[" ++ jsValDisp rt v1 ++ "]"))))
      else .ok item
    | none => .ok item

/-- `_processJsonArrayExamples`. -/
def processJsonArrayExamples (rt : JsRt) (l : List ExampleModel) :
    Except Unit (List ExampleModel) :=
  l.mapM (processJsonArrayExamplesItem rt)

/-! ### `computeExamples` -/

/-- The outcome and threaded options of a `computeExamples` call. -/
abbrev CEResult := Except Unit (Option (List ExampleModel) × Opts)

/-- The item loop of `_computeExampleArraySchape`: the first item whose
recursive generation is truthy wins; JSON results are post-processed. -/
def computeExampleArraySchapeLoop
    (ce : Option Shape → Option String → Opts → CEResult)
    (rt : JsRt) (mime : Option String) (isJson : Bool) :
    List Shape → Opts → CEResult
  | [], opts => .ok (none, opts)
  | item :: rest, opts => do
    let (result, o') ← ce (some item) mime opts
    match result with
    | some res =>
      if isJson then do
        let res' ← processJsonArrayExamples rt res
        .ok (some res', o')
      else .ok (some res, o')
    | none => computeExampleArraySchapeLoop ce rt mime isJson rest o'

/-- `_computeExampleArraySchape` (sic).  When items exist the source first
re-binds the naming context: `opts.parentName = opts.typeName` and the
`typeName` key is deleted. -/
def computeExampleArraySchape (ce : Option Shape → Option String → Opts → CEResult)
    (rt : JsRt) (schema : Shape) (mime : Option String) (opts : Opts) : CEResult :=
  match schema.items with
  | none => .ok (none, opts)
  | some items =>
    let isJson := strContainsJs (mime.getD "") "json"
    let opts1 : Opts :=
      { opts with parentName := opts.typeName, typeName := none }
    computeExampleArraySchapeLoop ce rt mime isJson items opts1

/-- The alternative loop of `_computeUnionExamples` (index `i` is 0-based
over all alternatives).  A truthy alternative result that is an empty list
makes `data.hasTitle = true` throw on `data[0] = undefined`. -/
def computeUnionExamplesLoop (ce : Option Shape → Option String → Opts → CEResult)
    (mime : Option String) :
    List Shape → Nat → Opts → List ExampleModel → Except Unit (List ExampleModel × Opts)
  | [], _, opts, acc => .ok (acc, opts)
  | alt :: rest, i, opts, acc => do
    let (data?, o') ← ce (some alt) mime opts
    match data? with
    | none => computeUnionExamplesLoop ce mime rest (i + 1) o' acc
    | some [] => .error ()
    | some (m :: _) =>
      let name : String :=
        match getStr alt.name with
        | some n => n
        | none => "Union #" ++ toString (i + 1)
      computeUnionExamplesLoop ce mime rest (i + 1) o' (acc ++ [m.withTitleSet name])

/-- `_computeUnionExamples`. -/
def computeUnionExamples (ce : Option Shape → Option String → Opts → CEResult)
    (schema : Shape) (mime : Option String) (opts : Opts) : CEResult :=
  match schema.anyOf with
  | none => .ok (none, opts)
  | some anyOf => do
    let (vals, o') ← computeUnionExamplesLoop ce mime anyOf 0 opts []
    match vals with
    | [] => .ok (none, o')
    | v :: vs =>
      .ok (some [.mk false false true none none none (some (v :: vs)) false], o')

/-- The `opts.typeName` refinement at the head of `computeExamples`. -/
def updateTypeNameOpts (schema : Shape) (opts : Opts) : Opts :=
  if jsTruthyS opts.typeName then opts
  else
    match getStr schema.name with
    | some tn =>
      if jsStartsWith tn "amf_inline_type" then opts
      else { opts with typeName := some tn }
    | none => opts

@[simp] theorem updateTypeNameOpts_rawOnly (schema : Shape) (opts : Opts) :
    (updateTypeNameOpts schema opts).rawOnly = opts.rawOnly := by
  unfold updateTypeNameOpts
  split
  · rfl
  · split
    · split <;> rfl
    · rfl

@[simp] theorem updateTypeNameOpts_noAuto (schema : Shape) (opts : Opts) :
    (updateTypeNameOpts schema opts).noAuto = opts.noAuto := by
  unfold updateTypeNameOpts
  split
  · rfl
  · split
    · split <;> rfl
    · rfl

@[simp] theorem updateTypeNameOpts_typeId (schema : Shape) (opts : Opts) :
    (updateTypeNameOpts schema opts).typeId = opts.typeId := by
  unfold updateTypeNameOpts
  split
  · rfl
  · split
    · split <;> rfl
    · rfl

/-- The closing if-cascade of `computeExamples` (union shape, `noAuto`,
scalar shape, object properties), reached when no earlier branch
returned. -/
def coreCascade (rt : JsRt) (fuel : Nat)
    (ce : Option Shape → Option String → Opts → CEResult)
    (schema : Shape) (mime : Option String) (o2 : Opts) : CEResult :=
  if hasType schema unionShapeT then computeUnionExamples ce schema mime o2
  else if o2.noAuto then .ok (none, o2)
  else if hasType schema scalarShapeT then do
    let v ← computeJsonScalarValue rt schema
    .ok (some [.mk false false false (some v) none none none true], o2)
  else
    match schema.properties with
    | some (p :: ps) => do
      let value ← exampleFromProperties rt fuel (p :: ps) (mime.getD "")
        o2.typeName o2.parentName
      match value with
      | some m => .ok (some [m], o2)
      | none => .ok (none, o2)
    | _ => .ok (none, o2)

/-- The tail of `computeExamples` after the array branch: the `Example`
node shortcut followed by the closing cascade. -/
def coreTail (rt : JsRt) (fuel : Nat)
    (ce : Option Shape → Option String → Opts → CEResult)
    (schema : Shape) (mime : Option String) (o2 : Opts) : CEResult := do
  let g ←
    if hasType schema exampleT then generateFromExample rt fuel schema mime o2
    else pure none
  match g with
  | some m => .ok (some [m], o2)
  | none => coreCascade rt fuel ce schema mime o2

/-- One layer of `computeExamples`, with the recursive call abstracted as
`ce` (instantiated with one unit of fuel less). -/
def computeExamplesCore (rt : JsRt) (fuel : Nat)
    (ce : Option Shape → Option String → Opts → CEResult)
    (schema? : Option Shape) (mime : Option String) (opts : Opts) : CEResult :=
  match schema? with
  | none => .ok (none, opts)
  | some schema =>
    if ¬ jsTruthyS mime ∧ ¬ opts.rawOnly then .ok (none, opts)
    else
      let opts1 : Opts := updateTypeNameOpts schema opts
      match schema.examples with
      | some exs =>
        (computeFromExamples rt fuel exs mime opts1).map (fun r => (r, opts1))
      | none =>
        match getStr (readJsonSchema schema) with
        | some js => (exampleFromJsonSchema rt fuel schema js).map (fun r => (some r, opts1))
        | none =>
          if opts1.rawOnly then .ok (none, opts1)
          else do
            let (av, o2) ←
              if hasType schema arrayShapeT then
                computeExampleArraySchape ce rt schema mime opts1
              else pure ((none : Option (List ExampleModel)), opts1)
            match av with
            | some _ => .ok (av, o2)
            | none => coreTail rt fuel ce schema mime o2

/-- `computeExamples` (the §4.1 Example Selector), fuel-indexed. -/
def computeExamples (rt : JsRt) : Nat → Option Shape → Option String → Opts → CEResult
  | 0, _, _, opts => .ok (none, opts)
  | fuel + 1, schema?, mime, opts =>
    computeExamplesCore rt fuel (computeExamples rt fuel) schema? mime opts

/-! ### Payload entry points -/

/-- `generatePayloadExamples`.  Sets `opts.typeId` to the payload's `@id`
before delegating; the threaded options are returned alongside the result
(the source mutates the caller's object). -/
def generatePayloadExamples (rt : JsRt) (fuel : Nat) (payload : Shape)
    (mime : Option String) (opts : Opts) : CEResult :=
  if ¬ hasType payload payloadT then .ok (none, opts)
  else
    match payload.schemaEdge with
    | none => .ok (none, opts)
    | some schema =>
      let opts' := { opts with typeId := some payload.id }
      computeExamples rt fuel (some schema) mime opts'

/-- The payload loop of `generatePayloadsExamples`: the first payload that
passes the media filter is delegated to and the loop breaks, whatever the
delegate returns. -/
def generatePayloadsExamplesLoop (rt : JsRt) (fuel : Nat)
    (media : Option String) (opts : Opts) : List Shape → CEResult
  | [] => .ok (none, opts)
  | payload :: rest =>
    if jsTruthyS media ∧ payload.mediaType ≠ media then
      generatePayloadsExamplesLoop rt fuel media opts rest
    else generatePayloadExamples rt fuel payload media opts

/-- `generatePayloadsExamples`.  A non-array `payloads` argument is wrapped
into a one-element list by the source; the model takes the wrapped list. -/
def generatePayloadsExamples (rt : JsRt) (fuel : Nat)
    (payloads : Option (List Shape)) (media : Option String) (opts : Opts) : CEResult :=
  match payloads with
  | none => .ok (none, opts)
  | some ps =>
    if ¬ jsTruthyS media ∧ ¬ opts.rawOnly then .ok (none, opts)
    else generatePayloadsExamplesLoop rt fuel media opts ps

/-! ### A concrete host runtime for closed evaluations

`rt0` agrees with the JS host on every concrete string fed to it by the
witnesses and counterexamples below (simple JSON classification, decimal
numbers, percent-free URI components). -/

def parseDecimalDigits (l : List Char) : Option Nat :=
  if l.isEmpty then none
  else if l.all Char.isDigit then
    some (l.foldl (fun acc c => acc * 10 + (c.toNat - 48)) 0)
  else none

def parseDecimal (s : String) : Option Rat :=
  let l := s.toList
  let (sign, l1) : Int × List Char :=
    match l with
    | '-' :: rest => (-1, rest)
    | '+' :: rest => (1, rest)
    | _ => (1, l)
  match l1.splitOn '.' with
  | [ds] => (parseDecimalDigits ds).map (fun n => (sign * n : Int))
  | [ds, fs] =>
    match parseDecimalDigits ds, parseDecimalDigits fs with
    | some n, some f =>
      some (sign * ((n : Rat) + (f : Rat) / ((10 : Rat) ^ fs.length)))
    | _, _ => none
  | _ => none

def rt0 : JsRt where
  jsonParseTypeOf := fun s =>
    let t := jsTrim s
    match t.toList.head? with
    | none => none
    | some '{' => some .object
    | some '[' => some .object
    | some '"' => some .string
    | some _ =>
      if t = "true" ∨ t = "false" then some .boolean
      else if t = "null" then some .object
      else if (parseDecimal t).isSome then some .number
      else none
  strToNum := parseDecimal
  numToString := fun q => if q.den = 1 then toString q.num else toString q
  decodeUriComp := fun s => if strContainsJs s "%" then none else some s

/-! ### Small `Except` reduction lemmas -/

@[simp] theorem exceptOkBind {α β : Type} (a : α) (f : α → Except Unit β) :
    (Except.ok a >>= f) = f a := rfl

@[simp] theorem exceptErrorBind {α β : Type} (e : Unit) (f : α → Except Unit β) :
    ((Except.error e : Except Unit α) >>= f) = .error e := rfl

@[simp] theorem exceptMapOk {α β : Type} (f : α → β) (a : α) :
    Except.map f (Except.ok a : Except Unit α) = .ok (f a) := rfl

@[simp] theorem exceptMapError {α β : Type} (f : α → β) (e : Unit) :
    Except.map f (Except.error e : Except Unit α) = .error e := rfl

@[simp] theorem exceptPureEq {α : Type} (a : α) :
    (pure a : Except Unit α) = .ok a := rfl

/-! ## Claims -/

/-! ### C10: missing-argument degradation at the entry points -/

/-- C10: the public entry points degrade missing arguments to an absent
result: `computeExamples` returns absent for an absent schema, and for an
absent media argument when `rawOnly` is not set; `generatePayloadsExamples`
likewise for absent payloads, and for an absent media argument when
`rawOnly` is not set. -/
theorem c10_missing_arguments :
    (∀ (rt : JsRt) (fuel : Nat) (mime : Option String) (opts : Opts),
      computeExamples rt fuel none mime opts = .ok (none, opts)) ∧
    (∀ (rt : JsRt) (fuel : Nat) (s : Option Shape) (opts : Opts),
      opts.rawOnly = false →
      computeExamples rt fuel s none opts = .ok (none, opts)) ∧
    (∀ (rt : JsRt) (fuel : Nat) (mime : Option String) (opts : Opts),
      generatePayloadsExamples rt fuel none mime opts = .ok (none, opts)) ∧
    (∀ (rt : JsRt) (fuel : Nat) (ps : List Shape) (opts : Opts),
      opts.rawOnly = false →
      generatePayloadsExamples rt fuel (some ps) none opts = .ok (none, opts)) := by
  refine ⟨?_, ?_, ?_, ?_⟩
  · intro rt fuel mime opts
    cases fuel <;> rfl
  · intro rt fuel s opts h
    cases fuel with
    | zero => rfl
    | succ n =>
      cases s with
      | none => rfl
      | some schema =>
        simp [computeExamples, computeExamplesCore, jsTruthyS, h]
  · intro rt fuel mime opts
    rfl
  · intro rt fuel ps opts h
    simp [generatePayloadsExamples, jsTruthyS, h]

/-- C10 witness: concrete instances of both guarded entry points. -/
theorem c10_missing_arguments_witness :
    computeExamples rt0 5 (some baseShape) none defaultOpts = .ok (none, defaultOpts) ∧
    generatePayloadsExamples rt0 5 (some [baseShape]) none defaultOpts = .ok (none, defaultOpts) :=
  ⟨c10_missing_arguments.2.1 rt0 5 (some baseShape) defaultOpts rfl,
   c10_missing_arguments.2.2.2 rt0 5 [baseShape] defaultOpts rfl⟩

/-! ### C2: zero-match example filtering -/

def c2Tracked : Shape := baseShape.withSourceMap (some ⟨none, some ⟨some "amf://id/other"⟩⟩)

def c2Shape : Shape :=
  ((baseShape.withTypes [scalarShapeT]).withDatatype
    (some (xmlSchemaNS ++ "string"))).withExamples (some [c2Tracked])

def c2ShapeNoEx : Shape :=
  (baseShape.withTypes [scalarShapeT]).withDatatype (some (xmlSchemaNS ++ "string"))

def c2Opts : Opts := { defaultOpts with typeId := some "/p1" }

/-- C2 counterexample: a scalar shape carrying one author example tracked
to a different payload id.  With `typeId` set the filter yields zero
matches and `computeExamples` returns absent at the author-examples step —
it does *not* behave as if the shape carried no author examples, which
would synthesize the scalar default (as the same shape without the
examples edge shows). -/
theorem c2_counterexample :
    computeExamples rt0 3 (some c2Shape) (some "application/json") c2Opts =
      .ok (none, c2Opts) ∧
    computeExamples rt0 3 (some c2ShapeNoEx) (some "application/json") c2Opts =
      .ok (some [.mk false false false (some (.str "")) none none none true], c2Opts) :=
  ⟨rfl, rfl⟩

/-- C2 amended: when the shape carries author examples and filtering them
by `typeId` yields zero matches, `computeExamples` returns absent at the
author-examples step; it does not proceed to the later precedence steps. -/
theorem c2_zero_match_absent (rt : JsRt) (fuel : Nat) (schema : Shape)
    (mime : Option String) (opts : Opts) (exs l : List Shape)
    (hex : schema.examples = some exs)
    (hproc : processExamples exs = some l)
    (hfilter : listTypeExamples l opts.typeId = none)
    (hmime : jsTruthyS mime = true) :
    computeExamples rt (fuel + 1) (some schema) mime opts =
      .ok (none, updateTypeNameOpts schema opts) := by
  simp [computeExamples, computeExamplesCore, hmime, hex, computeFromExamples, hproc]
  simp [hfilter, Except.map]

/-- C2 witness. -/
theorem c2_zero_match_absent_witness :
    computeExamples rt0 3 (some c2Shape) (some "application/json") c2Opts =
      .ok (none, updateTypeNameOpts c2Shape c2Opts) :=
  c2_zero_match_absent rt0 2 c2Shape (some "application/json") c2Opts
    [c2Tracked] [c2Tracked] rfl rfl rfl rfl

/-! ### C9: payload selection by media type -/

/-- The media filter of the payload loop: a payload is skipped exactly when
`media` is truthy and its declared media type differs. -/
def payloadMediaMatches (media : Option String) (p : Shape) : Bool :=
  if jsTruthyS media ∧ p.mediaType ≠ media then false else true

def c9Schema : Shape :=
  (baseShape.withTypes [scalarShapeT]).withDatatype (some (xmlSchemaNS ++ "string"))

def c9Payload : Shape :=
  (((baseShape.withTypes [payloadT]).withId "/pay1").withMediaType
    (some "application/xml")).withSchemaEdge (some c9Schema)

/-- C9 counterexample: a one-element payload list whose only payload does
not match the requested media.  The claim says the only payload is
attempted instead; the source returns absent, although attempting it would
produce a value. -/
theorem c9_counterexample :
    generatePayloadsExamples rt0 3 (some [c9Payload]) (some "application/json")
      defaultOpts = .ok (none, defaultOpts) ∧
    generatePayloadExamples rt0 3 c9Payload (some "application/json") defaultOpts =
      .ok (some [.mk false false false (some (.str "")) none none none true],
        { defaultOpts with typeId := some "/pay1" }) ∧
    c9Payload.mediaType ≠ some "application/json" := by
  refine ⟨rfl, rfl, by decide⟩

/-- C9 amended: `generatePayloadsExamples` delegates to
`generatePayloadExamples` on the *first* payload passing the media filter
(every payload when `media` is falsy); when `media` is set and no payload
matches, the result is absent — there is no only-payload fallback. -/
theorem c9_first_matching_payload (rt : JsRt) (fuel : Nat) (ps : List Shape)
    (media : Option String) (opts : Opts) :
    generatePayloadsExamples rt fuel (some ps) media opts =
      (if ¬ jsTruthyS media ∧ ¬ opts.rawOnly then .ok (none, opts)
       else
         match ps.find? (payloadMediaMatches media) with
         | some p => generatePayloadExamples rt fuel p media opts
         | none => .ok (none, opts)) := by
  have hloop : ∀ (l : List Shape),
      generatePayloadsExamplesLoop rt fuel media opts l =
        (match l.find? (payloadMediaMatches media) with
         | some p => generatePayloadExamples rt fuel p media opts
         | none => .ok (none, opts)) := by
    intro l
    induction l with
    | nil => rfl
    | cons p rest ih =>
      by_cases hs : jsTruthyS media ∧ p.mediaType ≠ media
      · have hk : payloadMediaMatches media p = false := by
          simp [payloadMediaMatches, hs.1, hs.2]
        rw [generatePayloadsExamplesLoop, if_pos hs, ih,
          List.find?_cons_of_neg _ (by simp [hk])]
      · have hk : payloadMediaMatches media p = true := by
          simp only [payloadMediaMatches, if_neg hs]
        rw [generatePayloadsExamplesLoop, if_neg hs, List.find?_cons_of_pos _ hk]
  simp only [generatePayloadsExamples]
  split
  · rfl
  · exact hloop ps

/-! ### C4: scalar zero-value synthesis -/

/-- The fixed scalar datatype vocabulary of §4.2 (absent datatype
included). -/
def standardDatatypeOpts : List (Option String) :=
  [none,
   some (xmlSchemaNS ++ "string"), some (xmlSchemaNS ++ "boolean"),
   some (xmlSchemaNS ++ "integer"), some (xmlSchemaNS ++ "long"),
   some (xmlSchemaNS ++ "double"), some (xmlSchemaNS ++ "float"),
   some (xmlSchemaNS ++ "nil"), some (xmlSchemaNS ++ "dateTime"),
   some (xmlSchemaNS ++ "date"), some (xmlSchemaNS ++ "time"),
   some (shapesNS ++ "number"), some (shapesNS ++ "integer"),
   some (shapesNS ++ "long"), some (shapesNS ++ "double"),
   some (shapesNS ++ "float"), some (shapesNS ++ "boolean"),
   some (shapesNS ++ "nil")]

/-- The zero-value table exactly as the claim states it: `0` for the
numeric kinds, `false` for boolean, `null` for nil/null, and the empty
string for every other (or missing) datatype. -/
def zeroValueTable (dt : Option String) : JsVal :=
  match dt with
  | none => .str ""
  | some t =>
    if t ∈ numericTypeIris then .num 0
    else if t = xmlSchemaNS ++ "boolean" ∨ t = shapesNS ++ "boolean" then .bool false
    else if t = xmlSchemaNS ++ "nil" ∨ t = shapesNS ++ "nil" then .null
    else .str ""

theorem computeJsonScalarValue_zero (rt : JsRt) (s : Shape)
    (hdef : s.defaultValue = none) (hex : s.examples = none)
    (hdt : s.datatype ∈ standardDatatypeOpts) :
    computeJsonScalarValue rt s = .ok (zeroValueTable s.datatype) := by
  have hv : getTypeScalarValue s = none := by
    simp [getTypeScalarValue, hdef, hex]
  simp only [computeJsonScalarValue, hv, getStr, computeScalarType, zeroValueTable]
  generalize hd : s.datatype = d
  rw [hd] at hdt
  fin_cases hdt <;> rfl

/-- C4 (amended): for every scalar shape whose declared datatype is absent
or belongs to the standard datatype vocabulary, with no declared default
value and no attached example, the value synthesized by `computeExamples`
is exactly the zero-value table entry for its declared datatype.  The
original claim's "empty string for every other (or missing) datatype" is
not unconditional: a degenerate identifier whose local name strips to the
empty string makes `_computeScalarType` throw instead (see the
counterexample). -/
theorem c4_scalar_zero_value (rt : JsRt) (fuel : Nat) (schema : Shape)
    (mime : Option String) (opts : Opts)
    (h1 : hasType schema scalarShapeT = true)
    (h2 : hasType schema arrayShapeT = false)
    (h3 : hasType schema exampleT = false)
    (h4 : hasType schema unionShapeT = false)
    (h5 : schema.examples = none)
    (h6 : getStr (readJsonSchema schema) = none)
    (h7 : schema.defaultValue = none)
    (h8 : opts.rawOnly = false)
    (h9 : opts.noAuto = false)
    (h10 : jsTruthyS mime = true)
    (h11 : schema.datatype ∈ standardDatatypeOpts) :
    ∃ o : Opts,
      computeExamples rt (fuel + 1) (some schema) mime opts =
        .ok (some [.mk false false false (some (zeroValueTable schema.datatype))
          none none none true], o) := by
  refine ⟨updateTypeNameOpts schema opts, ?_⟩
  simp only [computeExamples, computeExamplesCore, coreTail, coreCascade, h10, h5, h6]
  simp only [updateTypeNameOpts_rawOnly, updateTypeNameOpts_noAuto, h8, h9, h2, h3, h4, h1]
  simp [computeJsonScalarValue_zero rt schema h7 h5 h11, h8, h9]

def c4Shape : Shape :=
  (baseShape.withTypes [scalarShapeT]).withDatatype (some (xmlSchemaNS ++ "integer"))

/-- C4 witness: an integer scalar with no default and no example yields the
numeric zero. -/
theorem c4_scalar_zero_value_witness :
    (∃ o : Opts,
      computeExamples rt0 3 (some c4Shape) (some "application/json") defaultOpts =
        .ok (some [.mk false false false (some (zeroValueTable c4Shape.datatype))
          none none none true], o)) ∧
    zeroValueTable c4Shape.datatype = .num 0 :=
  ⟨c4_scalar_zero_value rt0 2 c4Shape (some "application/json") defaultOpts
    rfl rfl rfl rfl rfl rfl rfl rfl rfl rfl (by decide),
   by decide⟩

/-- A scalar shape whose datatype identifier is the bare XMLSchema
namespace IRI: stripping the namespace leaves an empty local name. -/
def c4BadShape : Shape :=
  (baseShape.withTypes [scalarShapeT]).withDatatype (some xmlSchemaNS)

/-- C4 counterexample: outside the standard vocabulary the zero-value
table does not always apply.  A datatype identifier that strips to the
empty local name makes `id[0].toUpperCase()` in `_computeScalarType` throw
a TypeError, so `computeExamples` errors instead of yielding the empty
string the claim promises for "every other" datatype. -/
theorem c4_counterexample :
    computeExamples rt0 3 (some c4BadShape) (some "application/json") defaultOpts =
      .error () ∧
    c4BadShape.datatype ∉ standardDatatypeOpts :=
  ⟨rfl, by decide⟩

/-! ### C8: tree-markup name sanitization -/

/-- Modelled from the claim's words: the emitted name is the declared name
with every character outside `[A-Za-z0-9_-]` removed (for comparison with
the source's per-path behavior). -/
def claimNameSanitize (s : String) : String :=
  (s.toList.filter isTagChar).asString

def c8Range : Shape :=
  (baseShape.withName (some "ignored")).withXmlSerialization
    (some ⟨some "user??name", true, false⟩)

def c8Prop : Shape := baseShape.withRange (some c8Range)

/-- C8 counterexample: a property rendered as an attribute whose declared
serialization name is `"user??name"` is emitted as `"user?name"` — only the
first `?` is removed, the emitted attribute name still contains `?`, and it
differs from the claim's sanitization (`"username"`). -/
theorem c8_counterexample :
    xmlProcessProperty rt0 2 ⟨"root", [], []⟩ c8Prop =
      .ok ⟨"root", [("user?name", "")], []⟩ ∧
    strContainsJs "user?name" "?" = true ∧
    claimNameSanitize "user??name" = "username" :=
  ⟨rfl, by decide, by decide⟩

/-- C8 amended: element names produced by `_normalizeXmlTagName` keep
exactly the characters in `[A-Za-z0-9_-]`; element names produced by
`_appendXmlElement` keep exactly the characters in `[A-Za-z0-9-]`
(underscores are removed too); attribute names are the declared
serialization name with only the *first* `?` removed (no other
sanitization), so `"user-name?"` yields attribute name `"user-name"`. -/
theorem c8_name_rules :
    (∀ (n : String), (normalizeXmlTagName n).toList = n.toList.filter isTagChar ∧
      ∀ c ∈ (normalizeXmlTagName n).toList, isTagChar c = true) ∧
    (∀ (range : Shape) (nm tx : String) (n0 : String),
      appendXmlElementCore range = some (nm, tx) →
      getStr range.name = some n0 →
      nm = (n0.toList.filter isElemNameChar).asString ∧
        ∀ c ∈ nm.toList, isElemNameChar c = true) ∧
    (∀ (node : XmlElem) (range : Shape) (ser : XmlSer) (n0 : String),
      getStr ser.xmlName = some n0 →
      appendXmlAttribute node range ser =
        node.setAttribute
          (if strContainsJs n0 "?" then jsReplaceFirst n0 "?" else n0)
          (match getStr (readDataType range) with
           | none => ""
           | some v => v)) ∧
    jsReplaceFirst "user-name?" "?" = "user-name" := by
  refine ⟨?_, ?_, ?_, by decide⟩
  · intro n
    constructor
    · rfl
    · intro c hc
      simp only [normalizeXmlTagName] at hc
      exact (List.mem_filter.mp hc).2
  · intro range nm tx n0 hcore hname
    simp only [appendXmlElementCore, hname] at hcore
    have hnm : nm = (n0.toList.filter isElemNameChar).asString := by
      cases hcore₂ : getStr range.defaultValueStr <;>
        simp [hcore₂] at hcore <;> exact hcore.1.symm
    refine ⟨hnm, ?_⟩
    intro c hc
    rw [hnm] at hc
    exact (List.mem_filter.mp hc).2
  · intro node range ser n0 hn
    simp only [appendXmlAttribute, hn]

/-- C8 witness: the attribute-name rule applied to the declared name
`"user-name?"`. -/
theorem c8_name_rules_witness :
    appendXmlAttribute ⟨"r", [], []⟩ baseShape ⟨some "user-name?", true, false⟩ =
      XmlElem.setAttribute ⟨"r", [], []⟩
        (if strContainsJs "user-name?" "?" then jsReplaceFirst "user-name?" "?"
         else "user-name?")
        (match getStr (readDataType baseShape) with
         | none => ""
         | some v => v) :=
  c8_name_rules.2.2.1 ⟨"r", [], []⟩ baseShape ⟨some "user-name?", true, false⟩
    "user-name?" rfl

/-! ### C5: JSON array bracket wrapping -/

def c5Alt1 : Shape :=
  ((baseShape.withTypes [scalarShapeT]).withDatatype
    (some (xmlSchemaNS ++ "string"))).withDefaultValue (some ⟨some "a"⟩)

def c5Alt2 : Shape :=
  ((baseShape.withTypes [scalarShapeT]).withDatatype
    (some (xmlSchemaNS ++ "string"))).withDefaultValue (some ⟨some "b"⟩)

def c5Union : Shape := (baseShape.withTypes [unionShapeT]).withAnyOf (some [c5Alt1, c5Alt2])

def c5Shape : Shape := (baseShape.withTypes [arrayShapeT]).withItems (some [c5Union])

/-- C5 counterexample: an array shape over a union with two surviving
alternatives.  Only the first entry of the union's `values` list is
bracket-wrapped (`"[a]"`); the second entry keeps `"b"`, which does not
start with `[`. -/
theorem c5_counterexample :
    computeExamples rt0 5 (some c5Shape) (some "application/json") defaultOpts =
      .ok (some [.mk false false true none none none
        (some [.mk false true false (some (.str "[a]")) (some "Union #1") none none true,
               .mk false true false (some (.str "b")) (some "Union #2") none none true])
        false], defaultOpts) ∧
    jsValFirstChar (JsVal.str "b") ≠ some '[' :=
  ⟨rfl, by decide⟩

/-- C5 amended: for a structured-text (JSON) array target, a plain result
whose value is present, is not JS `null` and does not start with `[` is
wrapped in exactly one pair of brackets (an empty string becoming
literally `[""]`), and for a union result only the *first* entry of its
`values` list is so wrapped (the remaining entries are left unchanged);
a JS `null` value instead makes the post-processing throw (`value[0]` on
`null`); the array branch applies this post-processing to the first item
type whose recursive generation succeeds. -/
theorem c5_json_array_wrap :
    (∀ (rt : JsRt) (item : ExampleModel) (v : JsVal),
      item.values = none → item.value = some v → v ≠ .null →
      jsValFirstChar v ≠ some '[' →
      processJsonArrayExamplesItem rt item =
        .ok (item.withValue (some (.str ("[" ++
          jsValDisp rt (if v = .str "" then .str "\"\"" else v) ++ "]")))) ∧
      (v = .str "" →
        processJsonArrayExamplesItem rt item =
          .ok (item.withValue (some (.str "[\"\"]"))))) ∧
    (∀ (rt : JsRt) (item v0 : ExampleModel) (rest : List ExampleModel) (v : JsVal),
      item.values = some (v0 :: rest) → v0.value = some v → v ≠ .null →
      jsValFirstChar v ≠ some '[' →
      processJsonArrayExamplesItem rt item =
        .ok (item.withValues (some ((v0.withValue (some (.str ("[" ++
          jsValDisp rt (if v = .str "" then .str "\"\"" else v) ++ "]")))) :: rest)))) ∧
    (∀ (rt : JsRt) (item : ExampleModel),
      item.values = none → item.value = some .null →
      processJsonArrayExamplesItem rt item = .error ()) ∧
    (∀ (rt : JsRt) (item v0 : ExampleModel) (rest : List ExampleModel),
      item.values = some (v0 :: rest) → v0.value = some .null →
      processJsonArrayExamplesItem rt item = .error ()) ∧
    (∀ (rt : JsRt) (fuel : Nat) (schema it : Shape) (restItems : List Shape)
      (mime : String) (opts : Opts) (ms : List ExampleModel) (o2 : Opts),
      schema.items = some (it :: restItems) →
      strContainsJs mime "json" = true →
      computeExamples rt fuel (some it) (some mime)
        { opts with parentName := opts.typeName, typeName := none } = .ok (some ms, o2) →
      computeExampleArraySchape (computeExamples rt fuel) rt schema (some mime) opts =
        (processJsonArrayExamples rt ms).map (fun l => (some l, o2))) := by
  refine ⟨?_, ?_, ?_, ?_, ?_⟩
  · intro rt item v hvals hval hnn hfc
    constructor
    · simp [processJsonArrayExamplesItem, hvals, hval, hnn, hfc]
    · intro hv
      subst hv
      simp [processJsonArrayExamplesItem, hvals, hval, hfc]
      rfl
  · intro rt item v0 rest v hvals hval hnn hfc
    simp [processJsonArrayExamplesItem, hvals, hval, hnn, hfc]
  · intro rt item hvals hval
    simp [processJsonArrayExamplesItem, hvals, hval]
  · intro rt item v0 rest hvals hval
    simp [processJsonArrayExamplesItem, hvals, hval]
  · intro rt fuel schema it restItems mime opts ms o2 hitems hjson hce
    simp only [computeExampleArraySchape, hitems, Option.getD,
      computeExampleArraySchapeLoop, hce, hjson]
    cases h : processJsonArrayExamples rt ms <;>
      simp [h, Except.map, Except.bind, hjson]

def c5PlainItem : ExampleModel := .mk false false false (some (.str "x")) none none none false

/-- C5 witness: the plain wrap rule at a concrete item. -/
theorem c5_json_array_wrap_witness :
    processJsonArrayExamplesItem rt0 c5PlainItem =
      .ok (c5PlainItem.withValue (some (.str ("[" ++
        jsValDisp rt0 (if JsVal.str "x" = .str "" then .str "\"\"" else .str "x") ++ "]")))) :=
  (c5_json_array_wrap.1 rt0 c5PlainItem (.str "x") rfl rfl (by decide) (by decide)).1

/-! ### C7: raw-text JSON usability -/

/-- Result shapes of the structured fallback under a JSON target: either no
model, or a model carrying exactly the retained raw text and flags. -/
theorem generateFromExampleStructure_json_cases (rt : JsRt) (fuel : Nat)
    (ex : Shape) (opts : Opts) (hb : Bool) (rk : Option String) (hT : Bool)
    (t : Option String) (ix : Bool) :
    generateFromExampleStructure rt fuel ex opts hb rk hT t true ix = .ok none ∨
    ∃ (val : Option JsVal) (isc : Bool),
      generateFromExampleStructure rt fuel ex opts hb rk hT t true ix =
        .ok (some (.mk hb hT false val t rk none isc)) := by
  unfold generateFromExampleStructure
  cases hst : ex.structuredValue with
  | none => exact Or.inr ⟨_, _, rfl⟩
  | some st =>
    cases st with
    | scalar a b => exact Or.inr ⟨_, _, rfl⟩
    | obj p =>
      cases h : jsonFromStructure rt fuel (DataNode.obj p) with
      | none => exact Or.inl (by simp [h])
      | some jv =>
        by_cases ht : jv.truthy = true
        · right
          cases jv with
          | scalar x => exact ⟨some x, false, by simp [h, ht]⟩
          | obj f => exact ⟨some (.str (jsonStringify rt fuel 0 (.obj f))), false,
              by simp [h, ht]⟩
          | arr a => exact ⟨some (.str (jsonStringify rt fuel 0 (.arr a))), false,
              by simp [h, ht]⟩
        · exact Or.inl (by simp [h, ht])
    | arr m =>
      cases h : jsonFromStructure rt fuel (DataNode.arr m) with
      | none => exact Or.inl (by simp [h])
      | some jv =>
        by_cases ht : jv.truthy = true
        · right
          cases jv with
          | scalar x => exact ⟨some x, false, by simp [h, ht]⟩
          | obj f => exact ⟨some (.str (jsonStringify rt fuel 0 (.obj f))), false,
              by simp [h, ht]⟩
          | arr a => exact ⟨some (.str (jsonStringify rt fuel 0 (.arr a))), false,
              by simp [h, ht]⟩
        · exact Or.inl (by simp [h, ht])
    | other v =>
      cases h : jsonFromStructure rt fuel (DataNode.other v) with
      | none => exact Or.inl (by simp [h])
      | some jv =>
        by_cases ht : jv.truthy = true
        · right
          cases jv with
          | scalar x => exact ⟨some x, false, by simp [h, ht]⟩
          | obj f => exact ⟨some (.str (jsonStringify rt fuel 0 (.obj f))), false,
              by simp [h, ht]⟩
          | arr a => exact ⟨some (.str (jsonStringify rt fuel 0 (.arr a))), false,
              by simp [h, ht]⟩
        · exact Or.inl (by simp [h, ht])

/-- C7 amended: for an example with raw text under a JSON target
(`rawOnly` unset): when parsing fails or yields a bare scalar, the parse
outcome is never surfaced (no exception), any produced model retains the
raw text in `raw` with `hasRaw` true, and with no structured subtree the
value falls back to the retained raw text — but a structured subtree whose
synthesis yields nothing produces *no* view model at all; when parsing
succeeds with an object or array, the raw text is used unmodified as the
value with `hasRaw` false. -/
theorem c7_raw_json_fallback :
    (∀ (rt : JsRt) (fuel : Nat) (ex : Shape) (mime : Option String)
      (opts : Opts) (r : String),
      opts.rawOnly = false →
      exampleRawValue ex = some r →
      strContainsJs (mime.getD "") "json" = true →
      (rt.jsonParseTypeOf r = none ∨ rt.jsonParseTypeOf r = some .string ∨
       rt.jsonParseTypeOf r = some .number ∨ rt.jsonParseTypeOf r = some .boolean) →
      (∃ v, generateFromExample rt fuel ex mime opts = .ok v) ∧
      (∀ m, generateFromExample rt fuel ex mime opts = .ok (some m) →
        m.hasRaw = true ∧ m.raw = some r) ∧
      (ex.structuredValue = none →
        generateFromExample rt fuel ex mime opts =
          .ok (some (.mk true (exampleTitleValue ex).isSome false (some (.str r))
            (exampleTitleValue ex) (some r) none false)))) ∧
    (∀ (rt : JsRt) (fuel : Nat) (ex : Shape) (mime : Option String)
      (opts : Opts) (r : String),
      opts.rawOnly = false →
      exampleRawValue ex = some r →
      strContainsJs (mime.getD "") "json" = true →
      rt.jsonParseTypeOf r = some .object →
      generateFromExample rt fuel ex mime opts =
        .ok (some (.mk false (exampleTitleValue ex).isSome false (some (.str r))
          (exampleTitleValue ex) none none false))) := by
  constructor
  · intro rt fuel ex mime opts r hro hraw hjson hparse
    have hnotobj : rt.jsonParseTypeOf r ≠ some JsTypeOf.object := by
      rcases hparse with h | h | h | h <;> simp [h]
    have hred : generateFromExample rt fuel ex mime opts =
        generateFromExampleStructure rt fuel ex opts true (some r)
          (exampleTitleValue ex).isSome (exampleTitleValue ex) true false := by
      simp only [generateFromExample, hraw, hro]
      simp [hro, hjson, hnotobj]
    rw [hred]
    refine ⟨?_, ?_, ?_⟩
    · rcases generateFromExampleStructure_json_cases rt fuel ex opts true (some r)
        (exampleTitleValue ex).isSome (exampleTitleValue ex) false
        with h | ⟨val, isc, h⟩
      · exact ⟨none, h⟩
      · exact ⟨_, h⟩
    · intro m hm
      rcases generateFromExampleStructure_json_cases rt fuel ex opts true (some r)
        (exampleTitleValue ex).isSome (exampleTitleValue ex) false
        with h | ⟨val, isc, h⟩
      · rw [h] at hm
        exact absurd hm (by simp)
      · rw [h] at hm
        have : m = .mk true (exampleTitleValue ex).isSome false val
            (exampleTitleValue ex) (some r) none isc := by
          injection hm with hm1
          injection hm1 with hm2
          exact hm2.symm
        subst this
        exact ⟨rfl, rfl⟩
    · intro hst
      simp [generateFromExampleStructure, hst]
  · intro rt fuel ex mime opts r hro hraw hjson hobj
    simp only [generateFromExample, hraw, hro]
    simp [hro, hjson, hobj]

def c7Ex : Shape :=
  (baseShape.withDocRaw (some "42")).withStructuredValue (some (.other none))

def c7Shape : Shape := baseShape.withExamples (some [c7Ex])

/-- C7 counterexample: raw text `"42"` parses as a bare number, and the
example's structured subtree synthesizes nothing, so generation produces no
view model at all — the raw text is not retained in any `raw` field,
contradicting the claim that it is retained with `hasRaw` true. -/
theorem c7_counterexample :
    rt0.jsonParseTypeOf "42" = some .number ∧
    computeExamples rt0 3 (some c7Shape) (some "application/json") defaultOpts =
      .ok (some [], defaultOpts) ∧
    c7Ex.docRaw = some "42" :=
  ⟨by decide, rfl, rfl⟩

/-- C7 witness: raw `"42"` with no structured subtree falls back to the
retained raw text. -/
theorem c7_raw_json_fallback_witness :
    generateFromExample rt0 1 (baseShape.withDocRaw (some "42"))
      (some "application/json") defaultOpts =
      .ok (some (.mk true (exampleTitleValue (baseShape.withDocRaw (some "42"))).isSome
        false (some (.str "42"))
        (exampleTitleValue (baseShape.withDocRaw (some "42"))) (some "42") none false)) :=
  (c7_raw_json_fallback.1 rt0 1 (baseShape.withDocRaw (some "42"))
    (some "application/json") defaultOpts "42" rfl rfl (by decide)
    (by right; right; left; decide)).2.2 rfl

/-! ### C3: `noAuto` suppression of synthesis -/

/-- A shape subgraph (through the pre-`noAuto` recursion paths: array items
and union alternatives) carrying no author-examples edge, not itself an
Example node, and carrying no raw JSON-Schema source-map fragment. -/
inductive NoAutoClean : Shape → Prop where
  | intro : ∀ s : Shape,
      s.examples = none →
      hasType s exampleT = false →
      getStr (readJsonSchema s) = none →
      (∀ l, s.items = some l → ∀ i ∈ l, NoAutoClean i) →
      (∀ l, s.anyOf = some l → ∀ a ∈ l, NoAutoClean a) →
      NoAutoClean s

/-- C3 amended: with `noAuto` set, a shape whose subgraph carries no
stored example nodes *and no raw JSON-Schema fragment* yields an absent
result — no synthesized default is produced. -/
theorem c3_noauto_absent (rt : JsRt) :
    ∀ (fuel : Nat) (s : Shape) (mime : Option String) (opts : Opts),
      NoAutoClean s → opts.noAuto = true →
      ∃ o : Opts, computeExamples rt fuel (some s) mime opts = .ok (none, o) ∧
        o.noAuto = true := by
  intro fuel
  induction fuel with
  | zero => intro s mime opts _ hna; exact ⟨opts, rfl, hna⟩
  | succ n ih =>
    intro s mime opts hc hna
    rcases hc with ⟨s, hex, hexT, hjs, hitems, hanyof⟩
    by_cases hm : ¬ jsTruthyS mime = true ∧ ¬ opts.rawOnly = true
    · exact ⟨opts, by simp [computeExamples, computeExamplesCore, hm], hna⟩
    · have hna1 : (updateTypeNameOpts s opts).noAuto = true := by
        simp [hna]
      by_cases hro : opts.rawOnly = true
      · refine ⟨updateTypeNameOpts s opts, ?_, hna1⟩
        simp [computeExamples, computeExamplesCore, hex, hjs, hro]
      · have hmime : jsTruthyS mime = true := by
          by_contra hmf
          exact hm ⟨by simpa using hmf, hro⟩
        -- the array-item loop yields no result on clean items
        have harrloop : ∀ (l : List Shape) (o : Opts) (isJson : Bool),
            (∀ i ∈ l, NoAutoClean i) → o.noAuto = true →
            ∃ o', computeExampleArraySchapeLoop (computeExamples rt n) rt mime
                isJson l o = .ok (none, o') ∧ o'.noAuto = true := by
          intro l
          induction l with
          | nil => intro o isJson _ hno; exact ⟨o, rfl, hno⟩
          | cons x xs ihl =>
            intro o isJson hcl hno
            obtain ⟨o', hq, hno'⟩ := ih x mime o (hcl x (by simp)) hno
            obtain ⟨o'', hq2, hno''⟩ :=
              ihl o' isJson (fun i hi => hcl i (by simp [hi])) hno'
            exact ⟨o'', by simp [computeExampleArraySchapeLoop, hq, hq2], hno''⟩
        -- the union-alternative loop keeps the accumulator on clean items
        have hunloop : ∀ (l : List Shape) (i : Nat) (o : Opts) (acc : List ExampleModel),
            (∀ a ∈ l, NoAutoClean a) → o.noAuto = true →
            ∃ o', computeUnionExamplesLoop (computeExamples rt n) mime l i o acc =
                .ok (acc, o') ∧ o'.noAuto = true := by
          intro l
          induction l with
          | nil => intro i o acc _ hno; exact ⟨o, rfl, hno⟩
          | cons x xs ihl =>
            intro i o acc hcl hno
            obtain ⟨o', hq, hno'⟩ := ih x mime o (hcl x (by simp)) hno
            obtain ⟨o'', hq2, hno''⟩ :=
              ihl (i + 1) o' acc (fun a ha => hcl a (by simp [ha])) hno'
            exact ⟨o'', by simp [computeUnionExamplesLoop, hq, hq2], hno''⟩
        -- the whole array branch
        have harr : ∃ o2, computeExampleArraySchape (computeExamples rt n) rt s mime
            (updateTypeNameOpts s opts) = .ok (none, o2) ∧ o2.noAuto = true := by
          cases hit : s.items with
          | none => exact ⟨updateTypeNameOpts s opts,
              by simp [computeExampleArraySchape, hit], hna1⟩
          | some items =>
            obtain ⟨o2, hq, hno2⟩ := harrloop items
              { updateTypeNameOpts s opts with
                  parentName := (updateTypeNameOpts s opts).typeName, typeName := none }
              (strContainsJs (mime.getD "") "json") (hitems items hit) (by simp [hna])
            refine ⟨o2, ?_, hno2⟩
            simp only [computeExampleArraySchape, hit]
            simpa using hq
        obtain ⟨o2, harrEq, hno2⟩ := harr
        -- the union branch from any threaded options with noAuto set
        have huni : ∀ (o : Opts), o.noAuto = true →
            ∃ o3, computeUnionExamples (computeExamples rt n) s mime o =
              .ok (none, o3) ∧ o3.noAuto = true := by
          intro o hno
          cases han : s.anyOf with
          | none => exact ⟨o, by simp [computeUnionExamples, han], hno⟩
          | some alts =>
            obtain ⟨o3, hq, hno3⟩ := hunloop alts 0 o [] (hanyof alts han) hno
            exact ⟨o3, by simp [computeUnionExamples, han, hq], hno3⟩
        by_cases harrT : hasType s arrayShapeT = true
        · by_cases hunT : hasType s unionShapeT = true
          · obtain ⟨o3, huniEq, hno3⟩ := huni o2 hno2
            refine ⟨o3, ?_, hno3⟩
            simp [computeExamples, computeExamplesCore, coreTail, coreCascade, hmime, hex, hjs, hro, harrT,
              harrEq, hexT, hunT, huniEq]
          · refine ⟨o2, ?_, hno2⟩
            simp [computeExamples, computeExamplesCore, coreTail, coreCascade, hmime, hex, hjs, hro, harrT,
              harrEq, hexT, hunT, hno2]
        · by_cases hunT : hasType s unionShapeT = true
          · obtain ⟨o3, huniEq, hno3⟩ := huni (updateTypeNameOpts s opts) hna1
            refine ⟨o3, ?_, hno3⟩
            simp [computeExamples, computeExamplesCore, coreTail, coreCascade, hmime, hex, hjs, hro, harrT,
              hexT, hunT, huniEq]
          · refine ⟨updateTypeNameOpts s opts, ?_, hna1⟩
            simp [computeExamples, computeExamplesCore, coreTail, coreCascade, hmime, hex, hjs, hro, harrT,
              hexT, hunT, hna]

/-- Decidable check that a shape subgraph carries no stored example nodes
(the examples edge is absent everywhere and no node is an Example). -/
def hasNoExampleNodesB : Nat → Shape → Bool
  | 0, _ => false
  | fuel + 1, s =>
    s.examples.isNone && ! hasType s exampleT &&
    (match s.items with
     | none => true
     | some l => l.all (hasNoExampleNodesB fuel)) &&
    (match s.anyOf with
     | none => true
     | some l => l.all (hasNoExampleNodesB fuel)) &&
    (match s.properties with
     | none => true
     | some l => l.all (hasNoExampleNodesB fuel)) &&
    (match s.range with
     | none => true
     | some r => hasNoExampleNodesB fuel r) &&
    (match s.schemaEdge with
     | none => true
     | some r => hasNoExampleNodesB fuel r)

def c3Range : Shape :=
  (baseShape.withTypes [scalarShapeT]).withDatatype (some (xmlSchemaNS ++ "string"))

def c3Prop : Shape := (baseShape.withName (some "name")).withRange (some c3Range)

def c3Shape : Shape :=
  (baseShape.withSourceMap (some ⟨some ⟨some "{}"⟩, none⟩)).withProperties
    (some [c3Prop])

def c3Opts : Opts := { defaultOpts with noAuto := true }

/-- C3 counterexample: a shape whose subgraph contains no stored example
nodes but carries a raw JSON-Schema source-map fragment.  With `noAuto`
set, `computeExamples` still returns a synthesized example built from the
shape's properties (the JSON-Schema precedence step runs before the
`noAuto` check). -/
theorem c3_counterexample :
    hasNoExampleNodesB 3 c3Shape = true ∧
    c3Opts.noAuto = true ∧
    computeExamples rt0 2 (some c3Shape) (some "application/json") c3Opts =
      .ok (some [.mk true false false
        (some (.str "\x7b\n  \"name\": \"\"\n\x7d")) none (some "\x7b\x7d") none false], c3Opts) :=
  ⟨by decide, rfl, rfl⟩

def c3CleanShape : Shape :=
  (baseShape.withTypes [scalarShapeT]).withDatatype (some (xmlSchemaNS ++ "integer"))

/-- C3 witness: a clean scalar shape under `noAuto` yields absent. -/
theorem c3_noauto_absent_witness :
    ∃ o : Opts,
      computeExamples rt0 4 (some c3CleanShape) (some "application/json") c3Opts =
        .ok (none, o) ∧ o.noAuto = true :=
  c3_noauto_absent rt0 4 c3CleanShape (some "application/json") c3Opts
    (NoAutoClean.intro c3CleanShape rfl rfl rfl
      (fun _ hl => Option.noConfusion hl)
      (fun _ hl => Option.noConfusion hl))
    rfl

/-! ### C6: the Union Resolver -/

/-- The disambiguating title rule: the alternative's declared name if
present, else `"Union #<1-based index>"`. -/
def specUnionTitle (alt : Shape) (i : Nat) : String :=
  match getStr alt.name with
  | some n => n
  | none => "Union #" ++ toString (i + 1)

/-- Modelled from the spec's words (§4.5), for comparison with the source:
visit the alternatives in declaration order, attempt generation, skip the
alternatives producing no result, and title each survivor. -/
def specUnionValues (ce : Option Shape → Option String → Opts → CEResult)
    (mime : Option String) :
    List Shape → Nat → Opts → Except Unit (List ExampleModel × Opts)
  | [], _, opts => .ok ([], opts)
  | alt :: rest, i, opts => do
    let (r, o') ← ce (some alt) mime opts
    let (tail, oF) ← specUnionValues ce mime rest (i + 1) o'
    match r with
    | none => .ok (tail, oF)
    | some [] => .ok (tail, oF)
    | some (m :: _) => .ok ((m.withTitleSet (specUnionTitle alt i)) :: tail, oF)

/-- No alternative's (threaded) generation yields a present-but-empty
result list — the condition under which the source resolver does not
throw. -/
def unionAltsOk (ce : Option Shape → Option String → Opts → CEResult)
    (mime : Option String) : List Shape → Opts → Bool
  | [], _ => true
  | alt :: rest, opts =>
    match ce (some alt) mime opts with
    | .error _ => true
    | .ok (some [], _) => false
    | .ok (_, o') => unionAltsOk ce mime rest o'

theorem unionLoop_spec (ce : Option Shape → Option String → Opts → CEResult)
    (mime : Option String) :
    ∀ (alts : List Shape) (i : Nat) (opts : Opts) (acc : List ExampleModel),
      unionAltsOk ce mime alts opts = true →
      computeUnionExamplesLoop ce mime alts i opts acc =
        (specUnionValues ce mime alts i opts).map (fun p => (acc ++ p.1, p.2)) := by
  intro alts
  induction alts with
  | nil =>
    intro i opts acc _
    simp [computeUnionExamplesLoop, specUnionValues]
  | cons alt rest ihl =>
    intro i opts acc h
    cases hce : ce (some alt) mime opts with
    | error e =>
      simp [computeUnionExamplesLoop, specUnionValues, hce]
    | ok p =>
      obtain ⟨r, o'⟩ := p
      cases r with
      | none =>
        have h' : unionAltsOk ce mime rest o' = true := by
          rw [unionAltsOk, hce] at h
          exact h
        rw [computeUnionExamplesLoop, hce]
        simp only [exceptOkBind]
        rw [ihl (i + 1) o' acc h']
        simp only [specUnionValues, hce, exceptOkBind]
        cases hsp : specUnionValues ce mime rest (i + 1) o' <;> simp [hsp]
      | some ms =>
        cases ms with
        | nil =>
          rw [unionAltsOk, hce] at h
          exact absurd h (by simp)
        | cons m tl =>
          have h' : unionAltsOk ce mime rest o' = true := by
            rw [unionAltsOk, hce] at h
            exact h
          rw [computeUnionExamplesLoop, hce]
          simp only [exceptOkBind]
          rw [ihl (i + 1) o' _ h']
          simp only [specUnionValues, hce, exceptOkBind]
          cases hsp : specUnionValues ce mime rest (i + 1) o' <;>
            simp [hsp, specUnionTitle]

/-- C6 amended: provided no alternative's generation yields a
present-but-empty result list (on which the source throws a TypeError),
`computeExamples` on a union shape agrees with the spec resolver: visit
alternatives in declaration order, skip those producing no result, title
each survivor with its declared name or `"Union #<1-based index over all
alternatives>"`, and produce a single `hasUnion` view model over the
ordered survivors, or absent when there are none. -/
theorem c6_union_resolver (rt : JsRt) (fuel : Nat) (schema : Shape)
    (mime : Option String) (opts : Opts) (alts : List Shape)
    (han : schema.anyOf = some alts)
    (hex : schema.examples = none)
    (hjs : getStr (readJsonSchema schema) = none)
    (hro : opts.rawOnly = false)
    (hmime : jsTruthyS mime = true)
    (harr : hasType schema arrayShapeT = false)
    (hexT : hasType schema exampleT = false)
    (hun : hasType schema unionShapeT = true)
    (hok : unionAltsOk (computeExamples rt fuel) mime alts
      (updateTypeNameOpts schema opts) = true) :
    computeExamples rt (fuel + 1) (some schema) mime opts =
      (specUnionValues (computeExamples rt fuel) mime alts 0
          (updateTypeNameOpts schema opts)).map
        (fun p =>
          ((match p.1 with
            | [] => (none : Option (List ExampleModel))
            | v :: vs =>
              some [.mk false false true none none none (some (v :: vs)) false]),
           p.2)) := by
  have hloop := unionLoop_spec (computeExamples rt fuel) mime alts 0
    (updateTypeNameOpts schema opts) [] hok
  simp only [computeExamples, computeExamplesCore, coreTail, coreCascade, hex, hjs, hmime, hro, harr,
    hexT, hun]
  simp only [hmime, updateTypeNameOpts_rawOnly, hro, Bool.false_eq_true,
    not_false_eq_true, and_true, not_true_eq_false, false_and, if_false,
    exceptPureEq, exceptOkBind]
  rw [computeUnionExamples, han]
  simp only [if_true, hloop]
  cases hsp : specUnionValues (computeExamples rt fuel) mime alts 0
      (updateTypeNameOpts schema opts) with
  | error e => simp [hsp]
  | ok p =>
    obtain ⟨vals, oF⟩ := p
    cases vals <;> simp [hsp]

def c6BadEx : Shape := baseShape.withStructuredValue (some (.other none))

def c6Alt : Shape := baseShape.withExamples (some [c6BadEx])

def c6Union : Shape := (baseShape.withTypes [unionShapeT]).withAnyOf (some [c6Alt])

/-- C6 counterexample: a union whose only alternative generates a
present-but-empty example list (an author example whose structured value
synthesizes nothing).  The claim requires the alternative to be skipped
(absent result); the source instead throws a TypeError
(`data[0]` is `undefined`). -/
theorem c6_counterexample :
    computeExamples rt0 5 (some c6Union) (some "application/json") defaultOpts =
      .error () ∧
    hasType c6Union unionShapeT = true :=
  ⟨rfl, by decide⟩

def c6WAlt1 : Shape := baseShape

def c6WAlt2 : Shape :=
  (baseShape.withTypes [scalarShapeT]).withDatatype (some (xmlSchemaNS ++ "string"))

def c6WUnion : Shape :=
  (baseShape.withTypes [unionShapeT]).withAnyOf (some [c6WAlt1, c6WAlt2])

/-- C6 witness: a union of a non-producing alternative and an unnamed
scalar alternative follows the spec resolver (one survivor, title
`"Union #2"`). -/
theorem c6_union_resolver_witness :
    computeExamples rt0 3 (some c6WUnion) (some "application/json") defaultOpts =
      (specUnionValues (computeExamples rt0 2) (some "application/json")
          [c6WAlt1, c6WAlt2] 0 (updateTypeNameOpts c6WUnion defaultOpts)).map
        (fun p =>
          ((match p.1 with
            | [] => (none : Option (List ExampleModel))
            | v :: vs =>
              some [.mk false false true none none none (some (v :: vs)) false]),
           p.2)) :=
  c6_union_resolver rt0 2 c6WUnion (some "application/json") defaultOpts
    [c6WAlt1, c6WAlt2] rfl rfl rfl rfl rfl rfl rfl (by decide) rfl

/-! ### C1: the output invariant -/

attribute [simp] ExampleModel.hasRaw ExampleModel.hasTitle ExampleModel.hasUnion
  ExampleModel.value ExampleModel.title ExampleModel.raw ExampleModel.values
  ExampleModel.isScalar ExampleModel.withTitleSet ExampleModel.withValue
  ExampleModel.withValues ExampleModel.withRawSet

/-- The amended output invariant: a union model has a non-empty `values`
list of invariant-satisfying models and no `value`/`raw`; a non-union model
has `raw` present iff `hasRaw`, `title` present iff `hasTitle`, and a
present `value` except possibly for scalar-structured examples
(`isScalar`). -/
inductive InvariantOk : ExampleModel → Prop where
  | plain : ∀ m : ExampleModel, m.hasUnion = false →
      (m.raw.isSome = m.hasRaw) →
      (m.title.isSome = m.hasTitle) →
      (m.value.isSome ∨ m.isScalar = true) →
      InvariantOk m
  | union : ∀ m : ExampleModel, m.hasUnion = true →
      (∃ v vs, m.values = some (v :: vs)) →
      m.value = none → m.raw = none →
      (∀ l, m.values = some l → ∀ e ∈ l, InvariantOk e) →
      InvariantOk m

/-- Decidable form of the non-union clauses. -/
def plainInvB (m : ExampleModel) : Bool :=
  ! m.hasUnion && (m.raw.isSome == m.hasRaw) && (m.title.isSome == m.hasTitle) &&
    (m.value.isSome || m.isScalar)

theorem plainInvB_ok {m : ExampleModel} (h : plainInvB m = true) : InvariantOk m := by
  simp only [plainInvB, Bool.and_eq_true, Bool.not_eq_true', beq_iff_eq,
    Bool.or_eq_true] at h
  exact .plain m h.1.1.1 h.1.1.2 h.1.2 h.2

/-- Every outcome of the structured fallback: a thrown error, no model, or
a non-union model with the given raw/title data whose value is present
unless it came from a scalar structured value. -/
theorem gfes_result_cases (rt : JsRt) (fuel : Nat) (ex : Shape) (opts : Opts)
    (hb : Bool) (rk : Option String) (hT : Bool) (tt : Option String)
    (ij ix : Bool) :
    generateFromExampleStructure rt fuel ex opts hb rk hT tt ij ix = .error () ∨
    generateFromExampleStructure rt fuel ex opts hb rk hT tt ij ix = .ok none ∨
    ∃ (val : Option JsVal) (isc : Bool),
      generateFromExampleStructure rt fuel ex opts hb rk hT tt ij ix =
        .ok (some (.mk hb hT false val tt rk none isc)) ∧
      (val.isSome = true ∨ isc = true) := by
  unfold generateFromExampleStructure
  cases hst : ex.structuredValue with
  | none => exact Or.inr (Or.inr ⟨_, _, rfl, Or.inl rfl⟩)
  | some st =>
    cases st with
    | scalar a b => exact Or.inr (Or.inr ⟨_, _, rfl, Or.inr rfl⟩)
    | obj p =>
      by_cases hij : ij = true
      · cases h : jsonFromStructure rt fuel (DataNode.obj p) with
        | none => exact Or.inr (Or.inl (by simp [hij, h]))
        | some jv =>
          by_cases ht : jv.truthy = true
          · right; right
            cases jv with
            | scalar x => exact ⟨some x, false, by simp [hij, h, ht], Or.inl rfl⟩
            | obj f => exact ⟨some (.str (jsonStringify rt fuel 0 (.obj f))), false,
                by simp [hij, h, ht], Or.inl rfl⟩
            | arr a => exact ⟨some (.str (jsonStringify rt fuel 0 (.arr a))), false,
                by simp [hij, h, ht], Or.inl rfl⟩
          · exact Or.inr (Or.inl (by simp [hij, h, ht]))
      · by_cases hix : ix = true
        · cases hx : xmlFromStructure rt fuel (DataNode.obj p) opts with
          | error e => exact Or.inl (by simp [hij, hix, hx])
          | ok d => exact Or.inr (Or.inr ⟨some (.str d), false,
              by simp [hij, hix, hx], Or.inl rfl⟩)
        · exact Or.inr (Or.inr ⟨some (.str (match rk with
            | some r => r
            | none => "")), false, by simp [hij, hix], Or.inl rfl⟩)
    | arr mem =>
      by_cases hij : ij = true
      · cases h : jsonFromStructure rt fuel (DataNode.arr mem) with
        | none => exact Or.inr (Or.inl (by simp [hij, h]))
        | some jv =>
          by_cases ht : jv.truthy = true
          · right; right
            cases jv with
            | scalar x => exact ⟨some x, false, by simp [hij, h, ht], Or.inl rfl⟩
            | obj f => exact ⟨some (.str (jsonStringify rt fuel 0 (.obj f))), false,
                by simp [hij, h, ht], Or.inl rfl⟩
            | arr a => exact ⟨some (.str (jsonStringify rt fuel 0 (.arr a))), false,
                by simp [hij, h, ht], Or.inl rfl⟩
          · exact Or.inr (Or.inl (by simp [hij, h, ht]))
      · by_cases hix : ix = true
        · cases hx : xmlFromStructure rt fuel (DataNode.arr mem) opts with
          | error e => exact Or.inl (by simp [hij, hix, hx])
          | ok d => exact Or.inr (Or.inr ⟨some (.str d), false,
              by simp [hij, hix, hx], Or.inl rfl⟩)
        · exact Or.inr (Or.inr ⟨some (.str (match rk with
            | some r => r
            | none => "")), false, by simp [hij, hix], Or.inl rfl⟩)
    | other v =>
      by_cases hij : ij = true
      · cases h : jsonFromStructure rt fuel (DataNode.other v) with
        | none => exact Or.inr (Or.inl (by simp [hij, h]))
        | some jv =>
          by_cases ht : jv.truthy = true
          · right; right
            cases jv with
            | scalar x => exact ⟨some x, false, by simp [hij, h, ht], Or.inl rfl⟩
            | obj f => exact ⟨some (.str (jsonStringify rt fuel 0 (.obj f))), false,
                by simp [hij, h, ht], Or.inl rfl⟩
            | arr a => exact ⟨some (.str (jsonStringify rt fuel 0 (.arr a))), false,
                by simp [hij, h, ht], Or.inl rfl⟩
          · exact Or.inr (Or.inl (by simp [hij, h, ht]))
      · by_cases hix : ix = true
        · cases hx : xmlFromStructure rt fuel (DataNode.other v) opts with
          | error e => exact Or.inl (by simp [hij, hix, hx])
          | ok d => exact Or.inr (Or.inr ⟨some (.str d), false,
              by simp [hij, hix, hx], Or.inl rfl⟩)
        · exact Or.inr (Or.inr ⟨some (.str (match rk with
            | some r => r
            | none => "")), false, by simp [hij, hix], Or.inl rfl⟩)

/-- Every model produced by `_generateFromExample` satisfies the non-union
invariant clauses. -/
theorem gfe_plain (rt : JsRt) (fuel : Nat) (ex : Shape) (mime : Option String)
    (opts : Opts) (m : ExampleModel)
    (h : generateFromExample rt fuel ex mime opts = .ok (some m)) :
    plainInvB m = true := by
  unfold generateFromExample at h
  by_cases hro : opts.rawOnly = true
  · cases hraw : exampleRawValue ex with
    | none =>
      rw [hraw] at h
      simp [hro] at h
    | some r =>
      rw [hraw] at h
      simp [hro] at h
      subst h
      simp [plainInvB]
  · cases hraw : exampleRawValue ex with
    | none =>
      rw [hraw] at h
      simp only [hro, and_false, false_and, if_false, Bool.false_eq_true] at h
      rcases gfes_result_cases rt fuel ex opts false none
          (exampleTitleValue ex).isSome (exampleTitleValue ex)
          (strContainsJs (mime.getD "") "json")
          ((! strContainsJs (mime.getD "") "json") && strContainsJs (mime.getD "") "xml")
        with he | hn | ⟨val, isc, heq, hvi⟩
      · rw [he] at h
        exact absurd h (by simp)
      · rw [hn] at h
        exact absurd h (by simp)
      · rw [heq] at h
        simp only [Except.ok.injEq, Option.some.injEq] at h
        subst h
        simp [plainInvB, hvi]
    | some r =>
      rw [hraw] at h
      simp only [hro, and_false, false_and, if_false, Bool.false_eq_true] at h
      by_cases h1 : strContainsJs (mime.getD "") "json" = true ∧
          rt.jsonParseTypeOf r = some JsTypeOf.object
      · simp only [h1, and_self, if_true, if_pos h1] at h
        simp only [Except.ok.injEq, Option.some.injEq] at h
        subst h
        simp [plainInvB]
      · rw [if_neg h1] at h
        by_cases h2 : ((! strContainsJs (mime.getD "") "json") &&
            strContainsJs (mime.getD "") "xml") = true ∧
            (jsTrim r).toList.head? = some '<'
        · rw [if_pos h2] at h
          simp only [Except.ok.injEq, Option.some.injEq] at h
          subst h
          simp [plainInvB]
        · rw [if_neg h2] at h
          rcases gfes_result_cases rt fuel ex opts true (some r)
              (exampleTitleValue ex).isSome (exampleTitleValue ex)
              (strContainsJs (mime.getD "") "json")
              ((! strContainsJs (mime.getD "") "json") &&
                strContainsJs (mime.getD "") "xml")
            with he | hn | ⟨val, isc, heq, hvi⟩
          · rw [he] at h
            exact absurd h (by simp)
          · rw [hn] at h
            exact absurd h (by simp)
          · rw [heq] at h
            simp only [Except.ok.injEq, Option.some.injEq] at h
            subst h
            simp [plainInvB, hvi]

/-- Models produced by `_exampleFromProperties` satisfy the non-union
clauses. -/
theorem efp_plain (rt : JsRt) (fuel : Nat) (properties : List Shape)
    (mime : String) (typeName parentType : Option String) (m : ExampleModel)
    (h : exampleFromProperties rt fuel properties mime typeName parentType =
      .ok (some m)) :
    plainInvB m = true := by
  unfold exampleFromProperties at h
  cases hv : exampleFromPropertiesValue rt fuel properties mime
      (match getStr typeName with
       | some t => t
       | none => unknownTypeName) parentType with
  | error e =>
    rw [hv] at h
    exact absurd h (by simp)
  | ok r? =>
    rw [hv] at h
    simp only [exceptOkBind] at h
    cases hg : getStr r? with
    | none =>
      rw [hg] at h
      exact absurd h (by simp)
    | some r =>
      rw [hg] at h
      simp only [Except.ok.injEq, Option.some.injEq] at h
      subst h
      simp [plainInvB]

/-- Models produced by `_exampleFromJsonSchema` satisfy the non-union
clauses. -/
theorem ejs_plain (rt : JsRt) (fuel : Nat) (schema : Shape) (js : String)
    (l : List ExampleModel)
    (h : exampleFromJsonSchema rt fuel schema js = .ok l) :
    ∀ m ∈ l, plainInvB m = true := by
  unfold exampleFromJsonSchema at h
  cases hp : schema.properties with
  | none =>
    rw [hp] at h
    simp only [exceptPureEq, exceptOkBind, Except.ok.injEq] at h
    subst h
    intro m hm
    simp only [List.mem_singleton] at hm
    subst hm
    simp [plainInvB]
  | some ps =>
    cases ps with
    | nil =>
      rw [hp] at h
      simp only [exceptPureEq, exceptOkBind, Except.ok.injEq] at h
      subst h
      intro m hm
      simp only [List.mem_singleton] at hm
      subst hm
      simp [plainInvB]
    | cons p rest =>
      rw [hp] at h
      simp only [exceptOkBind] at h
      cases he : exampleFromProperties rt fuel (p :: rest) "application/json"
          (some (match getStr schema.name with
            | some t => t
            | none => unknownTypeName)) none with
      | error e =>
        rw [he] at h
        exact absurd h (by simp)
      | ok ex? =>
        rw [he] at h
        simp only [exceptOkBind] at h
        cases ex? with
        | none =>
          simp only [Except.ok.injEq] at h
          subst h
          intro m hm
          simp only [List.mem_singleton] at hm
          subst hm
          simp [plainInvB]
        | some e0 =>
          simp only [Except.ok.injEq] at h
          subst h
          intro m hm
          simp only [List.mem_singleton] at hm
          subst hm
          have he0 := efp_plain rt fuel (p :: rest) "application/json"
            (some (match getStr schema.name with
              | some t => t
              | none => unknownTypeName)) none e0 he
          cases e0 with
          | mk hr ht hu v t r vs isc =>
            simp only [plainInvB, ExampleModel.hasUnion, ExampleModel.raw,
              ExampleModel.hasRaw, ExampleModel.title, ExampleModel.hasTitle,
              ExampleModel.value, ExampleModel.isScalar, ExampleModel.withRawSet,
              Bool.and_eq_true, Bool.not_eq_true', beq_iff_eq, Bool.or_eq_true] at he0 ⊢
            exact ⟨⟨⟨he0.1.1.1, rfl⟩, he0.1.2⟩, he0.2⟩

/-- The accumulator loop of `_computeFromExamples` only appends models
produced by `_generateFromExample`. -/
theorem cfe_fold_plain (rt : JsRt) (fuel : Nat) (mime : Option String)
    (opts : Opts) :
    ∀ (l : List Shape) (acc res : List ExampleModel),
      (l.foldlM
        (fun acc sh => do
          let v ← generateFromExample rt fuel sh mime opts
          pure (match v with
            | some m => acc ++ [m]
            | none => acc)) acc) = .ok res →
      (∀ m ∈ acc, plainInvB m = true) → ∀ m ∈ res, plainInvB m = true := by
  intro l
  induction l with
  | nil =>
    intro acc res h hacc
    simp only [List.foldlM_nil, exceptPureEq, Except.ok.injEq] at h
    subst h
    exact hacc
  | cons x xs ihl =>
    intro acc res h hacc
    rw [List.foldlM_cons] at h
    cases hg : generateFromExample rt fuel x mime opts with
    | error e =>
      rw [hg] at h
      exact absurd h (by simp)
    | ok v =>
      rw [hg] at h
      simp only [exceptOkBind, exceptPureEq, exceptErrorBind] at h
      cases v with
      | none => exact ihl acc res h hacc
      | some m0 =>
        refine ihl (acc ++ [m0]) res h ?_
        intro m hm
        rcases List.mem_append.mp hm with hm | hm
        · exact hacc m hm
        · simp only [List.mem_singleton] at hm
          rw [hm]
          exact gfe_plain rt fuel x mime opts m0 hg

/-- Models produced by `_computeFromExamples` satisfy the non-union
clauses. -/
theorem cfe_plain (rt : JsRt) (fuel : Nat) (examples : List Shape)
    (mime : Option String) (opts : Opts) (l : List ExampleModel)
    (h : computeFromExamples rt fuel examples mime opts = .ok (some l)) :
    ∀ m ∈ l, plainInvB m = true := by
  unfold computeFromExamples at h
  cases hp : processExamples examples with
  | none =>
    rw [hp] at h
    by_cases ht : jsTruthyS opts.typeId = true <;> simp [ht] at h
  | some exs =>
    simp only [hp] at h
    cases hf : listTypeExamples exs opts.typeId with
    | none =>
      simp only [hf] at h
      exact absurd h (by simp)
    | some l2 =>
      simp only [hf] at h
      cases hfold : (l2.foldlM
          (fun acc sh => do
            let v ← generateFromExample rt fuel sh mime opts
            pure (match v with
              | some m => acc ++ [m]
              | none => acc)) ([] : List ExampleModel)) with
      | error e =>
        rw [hfold] at h
        exact absurd h (by simp)
      | ok res =>
        rw [hfold] at h
        simp only [exceptOkBind, Except.ok.injEq, Option.some.injEq] at h
        subst h
        exact cfe_fold_plain rt fuel mime opts l2 [] res hfold (by simp)

/-- Setting a title preserves the invariant. -/
theorem withTitleSet_inv {m : ExampleModel} (n : String) (h : InvariantOk m) :
    InvariantOk (m.withTitleSet n) := by
  cases m with
  | mk hr ht hu v t r vs isc =>
    cases h with
    | plain _ hu' hraw htitle hval =>
      simp only [ExampleModel.hasUnion] at hu'
      subst hu'
      exact .plain _ (by simp) (by simpa using hraw) (by simp) (by simpa using hval)
    | union _ hu' hvals hval hraw hmem =>
      simp only [ExampleModel.hasUnion] at hu'
      subst hu'
      refine .union _ (by simp) ?_ (by simpa using hval) (by simpa using hraw) ?_
      · simpa using hvals
      · intro l hl e he
        exact hmem l (by simpa using hl) e he

/-! #### Projection lemmas for the model updaters -/

@[simp] theorem hasRaw_withValues (m : ExampleModel) (w : Option (List ExampleModel)) :
    (m.withValues w).hasRaw = m.hasRaw := by cases m with | mk a b c d e f g i => rfl

@[simp] theorem hasTitle_withValues (m : ExampleModel) (w : Option (List ExampleModel)) :
    (m.withValues w).hasTitle = m.hasTitle := by cases m with | mk a b c d e f g i => rfl

@[simp] theorem hasUnion_withValues (m : ExampleModel) (w : Option (List ExampleModel)) :
    (m.withValues w).hasUnion = m.hasUnion := by cases m with | mk a b c d e f g i => rfl

@[simp] theorem value_withValues (m : ExampleModel) (w : Option (List ExampleModel)) :
    (m.withValues w).value = m.value := by cases m with | mk a b c d e f g i => rfl

@[simp] theorem title_withValues (m : ExampleModel) (w : Option (List ExampleModel)) :
    (m.withValues w).title = m.title := by cases m with | mk a b c d e f g i => rfl

@[simp] theorem raw_withValues (m : ExampleModel) (w : Option (List ExampleModel)) :
    (m.withValues w).raw = m.raw := by cases m with | mk a b c d e f g i => rfl

@[simp] theorem values_withValues (m : ExampleModel) (w : Option (List ExampleModel)) :
    (m.withValues w).values = w := by cases m with | mk a b c d e f g i => rfl

@[simp] theorem isScalar_withValues (m : ExampleModel) (w : Option (List ExampleModel)) :
    (m.withValues w).isScalar = m.isScalar := by cases m with | mk a b c d e f g i => rfl

@[simp] theorem hasRaw_withValue (m : ExampleModel) (v : Option JsVal) :
    (m.withValue v).hasRaw = m.hasRaw := by cases m with | mk a b c d e f g i => rfl

@[simp] theorem hasTitle_withValue (m : ExampleModel) (v : Option JsVal) :
    (m.withValue v).hasTitle = m.hasTitle := by cases m with | mk a b c d e f g i => rfl

@[simp] theorem hasUnion_withValue (m : ExampleModel) (v : Option JsVal) :
    (m.withValue v).hasUnion = m.hasUnion := by cases m with | mk a b c d e f g i => rfl

@[simp] theorem value_withValue (m : ExampleModel) (v : Option JsVal) :
    (m.withValue v).value = v := by cases m with | mk a b c d e f g i => rfl

@[simp] theorem title_withValue (m : ExampleModel) (v : Option JsVal) :
    (m.withValue v).title = m.title := by cases m with | mk a b c d e f g i => rfl

@[simp] theorem raw_withValue (m : ExampleModel) (v : Option JsVal) :
    (m.withValue v).raw = m.raw := by cases m with | mk a b c d e f g i => rfl

@[simp] theorem values_withValue (m : ExampleModel) (v : Option JsVal) :
    (m.withValue v).values = m.values := by cases m with | mk a b c d e f g i => rfl

@[simp] theorem isScalar_withValue (m : ExampleModel) (v : Option JsVal) :
    (m.withValue v).isScalar = m.isScalar := by cases m with | mk a b c d e f g i => rfl

/-- A model with a present `value` is not a union model. -/
theorem inv_value_not_union {m : ExampleModel} {v : JsVal} (h : InvariantOk m)
    (hv : m.value = some v) : m.hasUnion = false := by
  cases h with
  | plain _ hu _ _ _ => exact hu
  | union _ _ _ hval _ _ => rw [hval] at hv; exact absurd hv (by simp)

/-- Setting a present value keeps a non-union model invariant. -/
theorem withValue_some_inv {m : ExampleModel} (v : JsVal) (h : InvariantOk m)
    (hu : m.hasUnion = false) : InvariantOk (m.withValue (some v)) := by
  cases h with
  | plain _ _ hraw htitle _ =>
    exact .plain _ (by simp only [hasUnion_withValue]; exact hu)
      (by simp only [raw_withValue, hasRaw_withValue]; exact hraw)
      (by simp only [title_withValue, hasTitle_withValue]; exact htitle)
      (Or.inl (by simp only [value_withValue]; rfl))
  | union _ hu' _ _ _ _ => rw [hu] at hu'; exact absurd hu' (by simp)

/-- Replacing the `values` list keeps the non-union clauses. -/
theorem withValues_inv_plain {m : ExampleModel} (w : Option (List ExampleModel))
    (h : InvariantOk m) (hu : m.hasUnion = false) :
    InvariantOk (m.withValues w) := by
  cases h with
  | plain _ _ hraw htitle hval =>
    exact .plain _ (by simp only [hasUnion_withValues]; exact hu)
      (by simp only [raw_withValues, hasRaw_withValues]; exact hraw)
      (by simp only [title_withValues, hasTitle_withValues]; exact htitle)
      (by simp only [value_withValues, isScalar_withValues]; exact hval)
  | union _ hu' _ _ _ _ => rw [hu] at hu'; exact absurd hu' (by simp)

/-- One step of `_processJsonArrayExamples` preserves the invariant. -/
theorem pjae_item_inv (rt : JsRt) (item out : ExampleModel)
    (hi : InvariantOk item)
    (h : processJsonArrayExamplesItem rt item = .ok out) :
    InvariantOk out := by
  unfold processJsonArrayExamplesItem at h
  split at h
  · exact absurd h (by simp)
  · rename_i v0 rest hveq
    split at h
    · rename_i v hv0
      split at h
      · exact absurd h (by simp)
      · split at h
        · simp only [Except.ok.injEq] at h
          subst h
          cases hi with
          | plain _ hu hraw htitle hvalp =>
            exact withValues_inv_plain _ (.plain _ hu hraw htitle hvalp) hu
          | union _ hu hvals hvalu hraw hmem =>
            refine .union _ (by simp only [hasUnion_withValues]; exact hu)
              ⟨_, _, values_withValues _ _⟩
              (by simp only [value_withValues]; exact hvalu)
              (by simp only [raw_withValues]; exact hraw) ?_
            intro l hl e he
            simp only [values_withValues, Option.some.injEq] at hl
            subst hl
            rcases List.mem_cons.mp he with he | he
            · rw [he]
              have hv0inv : InvariantOk v0 := hmem _ hveq v0 (by simp)
              exact withValue_some_inv _ hv0inv (inv_value_not_union hv0inv hv0)
            · exact hmem _ hveq e (by simp [he])
        · simp only [Except.ok.injEq] at h
          subst h
          exact hi
    · simp only [Except.ok.injEq] at h
      subst h
      exact hi
  · rename_i hveq
    split at h
    · rename_i v hv0
      split at h
      · exact absurd h (by simp)
      · split at h
        · simp only [Except.ok.injEq] at h
          subst h
          exact withValue_some_inv _ hi (inv_value_not_union hi hv0)
        · simp only [Except.ok.injEq] at h
          subst h
          exact hi
    · simp only [Except.ok.injEq] at h
      subst h
      exact hi

/-- `_processJsonArrayExamples` preserves the invariant across the list. -/
theorem pjae_inv (rt : JsRt) :
    ∀ (l l' : List ExampleModel),
      processJsonArrayExamples rt l = .ok l' →
      (∀ m ∈ l, InvariantOk m) → ∀ m ∈ l', InvariantOk m := by
  intro l
  induction l with
  | nil =>
    intro l' h hall m hm
    simp only [processJsonArrayExamples, List.mapM_nil, exceptPureEq,
      Except.ok.injEq] at h
    subst h
    exact absurd hm (by simp)
  | cons x xs ih =>
    intro l' h hall
    simp only [processJsonArrayExamples, List.mapM_cons] at h
    cases hx : processJsonArrayExamplesItem rt x with
    | error e =>
      rw [hx] at h
      exact absurd h (by simp)
    | ok y =>
      rw [hx] at h
      simp only [exceptOkBind] at h
      cases hxs : List.mapM (processJsonArrayExamplesItem rt) xs with
      | error e =>
        rw [hxs] at h
        exact absurd h (by simp)
      | ok ys =>
        rw [hxs] at h
        simp only [exceptOkBind, exceptPureEq, Except.ok.injEq] at h
        subst h
        intro m hm
        rcases List.mem_cons.mp hm with hm | hm
        · rw [hm]
          exact pjae_item_inv rt x y (hall x (by simp)) hx
        · exact ih ys hxs (fun z hz => hall z (by simp [hz])) m hm

/-- The union-alternative loop only accumulates invariant-satisfying
models, given that every recursive result does. -/
theorem union_loop_inv (ce : Option Shape → Option String → Opts → CEResult)
    (mime : Option String)
    (hce : ∀ s mi o l o', ce s mi o = .ok (some l, o') → ∀ m ∈ l, InvariantOk m) :
    ∀ (alts : List Shape) (i : Nat) (opts : Opts) (acc vals : List ExampleModel)
      (o : Opts),
      (∀ m ∈ acc, InvariantOk m) →
      computeUnionExamplesLoop ce mime alts i opts acc = .ok (vals, o) →
      ∀ m ∈ vals, InvariantOk m := by
  intro alts
  induction alts with
  | nil =>
    intro i opts acc vals o hacc h
    simp only [computeUnionExamplesLoop, Except.ok.injEq, Prod.mk.injEq] at h
    obtain ⟨hv, _⟩ := h
    subst hv
    exact hacc
  | cons alt rest ih =>
    intro i opts acc vals o hacc h
    simp only [computeUnionExamplesLoop] at h
    cases hce0 : ce (some alt) mime opts with
    | error e =>
      rw [hce0] at h
      exact absurd h (by simp)
    | ok p =>
      obtain ⟨data?, o'⟩ := p
      rw [hce0] at h
      simp only [exceptOkBind] at h
      split at h
      · exact ih (i + 1) o' acc vals o hacc h
      · exact absurd h (by simp)
      · rename_i m ms
        refine ih (i + 1) o' _ vals o ?_ h
        intro x hx
        rcases List.mem_append.mp hx with hx | hx
        · exact hacc x hx
        · simp only [List.mem_singleton] at hx
          rw [hx]
          exact withTitleSet_inv _ (hce _ _ _ _ _ hce0 m (by simp))

/-- The array-item loop only returns invariant-satisfying models, given
that every recursive result does. -/
theorem arr_loop_inv (ce : Option Shape → Option String → Opts → CEResult)
    (rt : JsRt) (mime : Option String) (isJson : Bool)
    (hce : ∀ s mi o l o', ce s mi o = .ok (some l, o') → ∀ m ∈ l, InvariantOk m) :
    ∀ (items : List Shape) (opts : Opts) (l : List ExampleModel) (o : Opts),
      computeExampleArraySchapeLoop ce rt mime isJson items opts = .ok (some l, o) →
      ∀ m ∈ l, InvariantOk m := by
  intro items
  induction items with
  | nil =>
    intro opts l o h
    exact absurd h (by simp [computeExampleArraySchapeLoop])
  | cons item rest ih =>
    intro opts l o h
    simp only [computeExampleArraySchapeLoop] at h
    cases hce0 : ce (some item) mime opts with
    | error e =>
      rw [hce0] at h
      exact absurd h (by simp)
    | ok p =>
      obtain ⟨result, o'⟩ := p
      rw [hce0] at h
      simp only [exceptOkBind] at h
      split at h
      · rename_i res
        split at h
        · cases hpj : processJsonArrayExamples rt res with
          | error e =>
            rw [hpj] at h
            exact absurd h (by simp)
          | ok res' =>
            rw [hpj] at h
            simp only [exceptOkBind, Except.ok.injEq, Prod.mk.injEq,
              Option.some.injEq] at h
            obtain ⟨hl, _⟩ := h
            subst hl
            exact pjae_inv rt res res' hpj (hce _ _ _ _ _ hce0)
        · simp only [Except.ok.injEq, Prod.mk.injEq, Option.some.injEq] at h
          obtain ⟨hl, _⟩ := h
          subst hl
          exact hce _ _ _ _ _ hce0
      · exact ih o' l o h

/-- `_computeExampleArraySchape` only returns invariant-satisfying models,
given that every recursive result does. -/
theorem arr_schape_inv (ce : Option Shape → Option String → Opts → CEResult)
    (rt : JsRt) (schema : Shape) (mime : Option String) (opts : Opts)
    (hce : ∀ s mi o l o', ce s mi o = .ok (some l, o') → ∀ m ∈ l, InvariantOk m)
    (l : List ExampleModel) (o : Opts)
    (h : computeExampleArraySchape ce rt schema mime opts = .ok (some l, o)) :
    ∀ m ∈ l, InvariantOk m := by
  unfold computeExampleArraySchape at h
  split at h
  · exact absurd h (by simp)
  · rename_i items hit
    exact arr_loop_inv ce rt mime (strContainsJs (mime.getD "") "json") hce items
      { opts with parentName := opts.typeName, typeName := none } l o h

/-- `_computeUnionExamples` packages the accumulated alternative heads as a
union model whose members all satisfy the invariant, given that every
recursive result does. -/
theorem union_branch_inv (ce : Option Shape → Option String → Opts → CEResult)
    (schema : Shape) (mime : Option String) (opts : Opts)
    (hce : ∀ s mi o l o', ce s mi o = .ok (some l, o') → ∀ m ∈ l, InvariantOk m)
    (l : List ExampleModel) (o : Opts)
    (h : computeUnionExamples ce schema mime opts = .ok (some l, o)) :
    ∀ m ∈ l, InvariantOk m := by
  unfold computeUnionExamples at h
  split at h
  · exact absurd h (by simp)
  · rename_i anyOf han
    cases hul : computeUnionExamplesLoop ce mime anyOf 0 opts [] with
    | error e =>
      rw [hul] at h
      exact absurd h (by simp)
    | ok p =>
      obtain ⟨vals, o'⟩ := p
      rw [hul] at h
      simp only [exceptOkBind] at h
      split at h
      · exact absurd h (by simp)
      · rename_i v vs
        simp only [Except.ok.injEq, Prod.mk.injEq, Option.some.injEq] at h
        obtain ⟨hl, _⟩ := h
        subst hl
        intro m hm
        simp only [List.mem_singleton] at hm
        rw [hm]
        refine .union _ (by simp) ⟨v, vs, by simp⟩ (by simp) (by simp) ?_
        intro l2 hl2 e he
        simp only [ExampleModel.values, Option.some.injEq] at hl2
        subst hl2
        exact union_loop_inv ce mime hce anyOf 0 opts [] (v :: vs) o'
          (by simp) hul e he


/-- The closing cascade only returns invariant-satisfying models, given
that every recursive result does. -/
theorem core_cascade_inv (rt : JsRt) (fuel : Nat)
    (ce : Option Shape → Option String → Opts → CEResult)
    (schema : Shape) (mime : Option String) (o2 : Opts)
    (hce : ∀ s mi o1 l1 o', ce s mi o1 = .ok (some l1, o') → ∀ m ∈ l1, InvariantOk m)
    (l : List ExampleModel) (o : Opts)
    (h : coreCascade rt fuel ce schema mime o2 = .ok (some l, o)) :
    ∀ m ∈ l, InvariantOk m := by
  unfold coreCascade at h
  split at h
  · exact union_branch_inv ce schema mime o2 hce l o h
  · split at h
    · exact absurd h (by simp)
    · split at h
      · cases hv : computeJsonScalarValue rt schema with
        | error e =>
          rw [hv] at h
          exact absurd h (by simp)
        | ok v =>
          rw [hv] at h
          simp only [exceptOkBind, Except.ok.injEq, Prod.mk.injEq,
            Option.some.injEq] at h
          obtain ⟨hl, _⟩ := h
          subst hl
          intro m hm
          simp only [List.mem_singleton] at hm
          rw [hm]
          exact .plain _ rfl rfl rfl (Or.inl rfl)
      · split at h
        · rename_i p ps hp
          cases hefp : exampleFromProperties rt fuel (p :: ps) (mime.getD "")
              o2.typeName o2.parentName with
          | error e =>
            rw [hefp] at h
            exact absurd h (by simp)
          | ok value =>
            rw [hefp] at h
            simp only [exceptOkBind] at h
            split at h
            · rename_i m0
              simp only [Except.ok.injEq, Prod.mk.injEq, Option.some.injEq] at h
              obtain ⟨hl, _⟩ := h
              subst hl
              intro m hm
              simp only [List.mem_singleton] at hm
              rw [hm]
              exact plainInvB_ok (efp_plain rt fuel (p :: ps) (mime.getD "")
                o2.typeName o2.parentName m0 hefp)
            · exact absurd h (by simp)
        · exact absurd h (by simp)

/-- The tail after the array branch only returns invariant-satisfying
models, given that every recursive result does. -/
theorem core_tail_inv (rt : JsRt) (fuel : Nat)
    (ce : Option Shape → Option String → Opts → CEResult)
    (schema : Shape) (mime : Option String) (o2 : Opts)
    (hce : ∀ s mi o1 l1 o', ce s mi o1 = .ok (some l1, o') → ∀ m ∈ l1, InvariantOk m)
    (l : List ExampleModel) (o : Opts)
    (h : coreTail rt fuel ce schema mime o2 = .ok (some l, o)) :
    ∀ m ∈ l, InvariantOk m := by
  unfold coreTail at h
  by_cases hexT : hasType schema exampleT = true
  · rw [if_pos hexT] at h
    cases hg : generateFromExample rt fuel schema mime o2 with
    | error e =>
      rw [hg] at h
      exact absurd h (by simp)
    | ok g =>
      rw [hg] at h
      simp only [exceptOkBind] at h
      split at h
      · rename_i m0
        simp only [Except.ok.injEq, Prod.mk.injEq, Option.some.injEq] at h
        obtain ⟨hl, _⟩ := h
        subst hl
        intro m hm
        simp only [List.mem_singleton] at hm
        rw [hm]
        exact plainInvB_ok (gfe_plain rt fuel schema mime o2 m0 hg)
      · exact core_cascade_inv rt fuel ce schema mime o2 hce l o h
  · rw [if_neg hexT] at h
    simp only [exceptPureEq, exceptOkBind] at h
    exact core_cascade_inv rt fuel ce schema mime o2 hce l o h

/-- C1 (amended).  Every model returned by `computeExamples`, at any
recursion depth, satisfies the output invariant: a union model
(`hasUnion = true`) carries a non-empty `values` list of
invariant-satisfying members and has no `value`/`raw`; a non-union model
has `raw` present iff `hasRaw` and `title` present iff `hasTitle`, and its
`value` is present unless the model was synthesized from a scalar
structured node (`isScalar = true`), in which case `value` may be absent —
contrary to the specification's unconditional "`value` is set". -/
theorem c1_output_invariant (rt : JsRt) :
    ∀ (fuel : Nat) (schema? : Option Shape) (mime : Option String) (opts : Opts)
      (l : List ExampleModel) (o : Opts),
      computeExamples rt fuel schema? mime opts = .ok (some l, o) →
      ∀ m ∈ l, InvariantOk m := by
  intro fuel
  induction fuel with
  | zero =>
    intro schema? mime opts l o h
    exact absurd h (by simp [computeExamples])
  | succ fuel ih =>
    intro schema? mime opts l o h
    have hce : ∀ s mi o1 l1 o2,
        computeExamples rt fuel s mi o1 = .ok (some l1, o2) →
        ∀ m ∈ l1, InvariantOk m :=
      fun s mi o1 l1 o2 hq => ih s mi o1 l1 o2 hq
    simp only [computeExamples] at h
    unfold computeExamplesCore at h
    split at h
    · exact absurd h (by simp)
    · rename_i schema
      split at h
      · exact absurd h (by simp)
      · simp only [] at h
        split at h
        · rename_i exs hex
          cases hcf : computeFromExamples rt fuel exs mime
              (updateTypeNameOpts schema opts) with
          | error e =>
            rw [hcf] at h
            exact absurd h (by simp)
          | ok r =>
            rw [hcf] at h
            simp only [exceptMapOk, Except.ok.injEq, Prod.mk.injEq] at h
            obtain ⟨hr, _⟩ := h
            subst hr
            exact fun m hm =>
              plainInvB_ok (cfe_plain rt fuel exs mime _ l hcf m hm)
        · rename_i hex
          split at h
          · rename_i js hjs
            cases hejs : exampleFromJsonSchema rt fuel schema js with
            | error e =>
              rw [hejs] at h
              exact absurd h (by simp)
            | ok r =>
              rw [hejs] at h
              simp only [exceptMapOk, Except.ok.injEq, Prod.mk.injEq,
                Option.some.injEq] at h
              obtain ⟨hr, _⟩ := h
              subst hr
              exact fun m hm =>
                plainInvB_ok (ejs_plain rt fuel schema js _ hejs m hm)
          · rename_i hjs
            split at h
            · exact absurd h (by simp)
            · by_cases harrT : hasType schema arrayShapeT = true
              · rw [if_pos harrT] at h
                cases harr : computeExampleArraySchape (computeExamples rt fuel)
                    rt schema mime (updateTypeNameOpts schema opts) with
                | error e =>
                  rw [harr] at h
                  exact absurd h (by simp)
                | ok p =>
                  obtain ⟨av, o2⟩ := p
                  rw [harr] at h
                  simp only [exceptOkBind] at h
                  split at h
                  · rename_i x
                    simp only [Except.ok.injEq, Prod.mk.injEq,
                      Option.some.injEq] at h
                    obtain ⟨hl, _⟩ := h
                    subst hl
                    exact arr_schape_inv _ rt schema mime _ hce _ o2 harr
                  · exact core_tail_inv rt fuel (computeExamples rt fuel)
                      schema mime o2 hce l o h
              · rw [if_neg harrT] at h
                simp only [exceptPureEq, exceptOkBind] at h
                exact core_tail_inv rt fuel (computeExamples rt fuel)
                  schema mime (updateTypeNameOpts schema opts) hce l o h

/-- A shape with one stored example whose structured value is a scalar
`data:Node` carrying no literal value. -/
def c1Shape : Shape :=
  baseShape.withExamples (some [baseShape.withStructuredValue (some (.scalar none none))])

/-- C1 counterexample to the claimed invariant as stated: a stored example
whose structured value is a scalar node without a literal is returned as a
model with `hasUnion = false` and **no** `value`, refuting "`value` is set
(possibly the empty string)". -/
theorem c1_counterexample :
    computeExamples rt0 3 (some c1Shape) (some "application/json") defaultOpts =
      .ok (some [.mk false false false none none none none true], defaultOpts) ∧
    (ExampleModel.mk false false false none none none none true).hasUnion = false ∧
    (ExampleModel.mk false false false none none none none true).value = none :=
  ⟨rfl, rfl, rfl⟩

/-- A string scalar shape used to exercise the amended invariant. -/
def c1WShape : Shape :=
  (baseShape.withTypes [scalarShapeT]).withDatatype (some (xmlSchemaNS ++ "string"))

/-- C1 witness: the amended invariant applied to a concrete run (a string
scalar yields one plain model with the empty-string value). -/
theorem c1_output_invariant_witness :
    InvariantOk (ExampleModel.mk false false false (some (.str "")) none none none true) :=
  c1_output_invariant rt0 1 (some c1WShape) (some "application/json") defaultOpts
    [.mk false false false (some (.str "")) none none none true] defaultOpts rfl
    (.mk false false false (some (.str "")) none none none true) (by simp)
